import Mathlib

/-!
# Verification of the any-auth request-pipeline engine

A shallow embedding, in Lean 4, of the parts of the any-auth library that the
specification's claims are about:

* the JavaScript value universe the engine manipulates (`JVal`), with the
  object/property semantics the code relies on (`jsLookup`, `getProp`,
  truthiness, `typeof`);
* the platform builtins the code calls: `JSON.stringify` / `JSON.parse`
  (`jsonStringify` / `jsonParse`), `btoa` / `atob` (base64), and
  `URLSearchParams` / `encodeURIComponent`;
* the engine itself: `getAllParams` (the value resolver), `removeNestedObjects`,
  `initParams` (per-step parameter initialisation with retry defaults),
  `encodeBody`, `waitAndRetryRequest` (the request executor's retry loop,
  instrumented with an event trace), `storeValuesToReturn` (response
  projection), the redirect bridge (local-storage store / recover), and the
  server-side custom-provider pipeline loop (`getCustomProviderUserInfo`).

Modelling conventions:

* JavaScript `undefined` is `Option.none` wherever a value can be absent;
  `JVal` itself covers the JSON universe (strings, integer numbers, booleans,
  null, arrays, objects).  IEEE-754 non-integer numbers are outside the model.
* An error raised through the library's `throwError` helper (which invokes the
  configured error handler and then throws) is `JsErr.thrown`; a raw
  `TypeError` from a property access on `undefined`/`null` (which bypasses
  every handler) is `JsErr.typeError`.
* Asynchronous suspension is irrelevant to the claims: `await` of a pure value
  is the value, so the embedding is direct.
* Wall-clock data (`Date.now()` timestamps in the retry context) is outside
  the model; the remaining retry-context fields are embedded.
-/

/-- A JavaScript/JSON value.  Numbers are modelled as integers: the repository
only ever round-trips values through `JSON.stringify`/`JSON.parse`, and
IEEE-754 fractional numbers are outside the scope of this embedding. -/
inductive JVal where
  | jstr : String → JVal
  | jnum : Int → JVal
  | jbool : Bool → JVal
  | jnull : JVal
  | jarr : List JVal → JVal
  | jobj : List (String × JVal) → JVal
deriving Inhabited

/-- `typeof v` for the modelled values (`typeof null` is `"object"` in JS). -/
def jsTypeof : JVal → String
  | .jstr _ => "string"
  | .jnum _ => "number"
  | .jbool _ => "boolean"
  | .jnull => "object"
  | .jarr _ => "object"
  | .jobj _ => "object"

/-- JavaScript truthiness of a defined value. -/
def jsTruthy : JVal → Bool
  | .jstr s => !(s == "")
  | .jnum n => !(n == 0)
  | .jbool b => b
  | .jnull => false
  | .jarr _ => true
  | .jobj _ => true

/-- Truthiness of a possibly-`undefined` value (`undefined` is falsy). -/
def jsTruthyO : Option JVal → Bool
  | none => false
  | some v => jsTruthy v

/-- Key lookup in an object's field list (`obj[key]`); `none` is `undefined`.
JS object keys are unique, and every constructor in this file preserves that. -/
def jsLookup : List (String × JVal) → String → Option JVal
  | [], _ => none
  | (k, v) :: rest, key => if k == key then some v else jsLookup rest key

/-- `obj[key] = v` by spread/`Object.assign`: an existing key is updated in
place, a new key is appended (JS insertion-order semantics). -/
def assignKey : List (String × JVal) → String → JVal → List (String × JVal)
  | [], key, v => [(key, v)]
  | (k, w) :: rest, key, v =>
      if k == key then (k, v) :: rest else (k, w) :: assignKey rest key v

/-- `Object.assign` for maps whose values may be `undefined` (a key can be
present with value `undefined` in JS). -/
def assignKeyO : List (String × Option JVal) → String → Option JVal →
    List (String × Option JVal)
  | [], key, v => [(key, v)]
  | (k, w) :: rest, key, v =>
      if k == key then (k, v) :: rest else (k, w) :: assignKeyO rest key v

/-- An error as the engine distinguishes them. -/
inductive JsErr where
  /-- Raised through the library's `throwError`: the configured error handler
  was invoked with the error, which was then thrown. -/
  | thrown : String → JsErr
  /-- A raw `TypeError` (property access on `undefined` or `null`): no error
  handler sees it. -/
  | typeError : String → JsErr
  /-- The abort raised when a request's timeout fires (`AbortError`). -/
  | abortError : JsErr
  /-- A network-level rejection of `fetch`. -/
  | netError : String → JsErr
  /-- `btoa`'s `InvalidCharacterError` on input outside Latin-1. -/
  | invalidChar : JsErr
deriving Repr, DecidableEq

/-- Property access `base[key]`, where the base may be `undefined`.
Accessing a property of `undefined` or `null` throws a `TypeError`; on a
string, number or boolean it yields `undefined` for the keys the engine uses
(wrapper-object properties such as `length` are outside the model); on an
array, a decimal key indexes the elements; on an object it is field lookup. -/
def getProp : Option JVal → String → Except JsErr (Option JVal)
  | none, key =>
      .error (.typeError ("cannot read properties of undefined (reading " ++ key ++ ")"))
  | some .jnull, key =>
      .error (.typeError ("cannot read properties of null (reading " ++ key ++ ")"))
  | some (.jobj fields), key => .ok (jsLookup fields key)
  | some (.jarr elems), key =>
      .ok ((key.toNat?).bind fun i => elems[i]?)
  | some (.jstr _), _ => .ok none
  | some (.jnum _), _ => .ok none
  | some (.jbool _), _ => .ok none

/-! ## JSON.stringify -/

/-- Lowercase hex digit for a nibble. -/
def hexDigitChar (n : Nat) : Char :=
  if n < 10 then Char.ofNat (48 + n) else Char.ofNat (87 + n)

/-- How `JSON.stringify` escapes one character inside a string literal:
`"` and `\` get a backslash, the named control escapes are `\b \t \n \f \r`,
any other control character becomes `\u00xx`, and everything else is kept. -/
def jEscape (c : Char) : List Char :=
  if c = Char.ofNat 34 then [Char.ofNat 92, Char.ofNat 34]
  else if c = Char.ofNat 92 then [Char.ofNat 92, Char.ofNat 92]
  else if c = Char.ofNat 8 then [Char.ofNat 92, 'b']
  else if c = Char.ofNat 9 then [Char.ofNat 92, 't']
  else if c = Char.ofNat 10 then [Char.ofNat 92, 'n']
  else if c = Char.ofNat 12 then [Char.ofNat 92, 'f']
  else if c = Char.ofNat 13 then [Char.ofNat 92, 'r']
  else if c.toNat < 32 then
    [Char.ofNat 92, 'u', '0', '0', hexDigitChar (c.toNat / 16), hexDigitChar (c.toNat % 16)]
  else [c]

/-- A JSON string literal (quotes plus escaped body) as characters. -/
def jStrChars (s : String) : List Char :=
  Char.ofNat 34 :: (s.toList.flatMap jEscape ++ [Char.ofNat 34])

/-- Decimal digits of a natural number, most significant first, onto `acc`. -/
def natCharsGo (n : Nat) (acc : List Char) : List Char :=
  if n < 10 then Char.ofNat (48 + n % 10) :: acc
  else natCharsGo (n / 10) (Char.ofNat (48 + n % 10) :: acc)
termination_by n
decreasing_by exact Nat.div_lt_self (by omega) (by omega)

/-- Decimal digits of a natural number. -/
def natChars (n : Nat) : List Char := natCharsGo n []

/-- Decimal rendering of an integer (optional minus sign, then digits). -/
def intChars (i : Int) : List Char :=
  if i < 0 then '-' :: natChars i.natAbs else natChars i.natAbs

mutual
/-- `JSON.stringify` of a value, as a character list (no added whitespace,
exactly as the builtin emits). -/
def jChars : JVal → List Char
  | .jstr s => jStrChars s
  | .jnum i => intChars i
  | .jbool true => ['t', 'r', 'u', 'e']
  | .jbool false => ['f', 'a', 'l', 's', 'e']
  | .jnull => ['n', 'u', 'l', 'l']
  | .jarr es => '[' :: (jArrChars es ++ [']'])
  | .jobj fs => Char.ofNat 123 :: (jObjChars fs ++ [Char.ofNat 125])

/-- Comma-joined array elements. -/
def jArrChars : List JVal → List Char
  | [] => []
  | e :: es => jChars e ++ jArrTail es

/-- The `, element` continuations of an array body. -/
def jArrTail : List JVal → List Char
  | [] => []
  | e :: es => ',' :: (jChars e ++ jArrTail es)

/-- Comma-joined `"key":value` members. -/
def jObjChars : List (String × JVal) → List Char
  | [] => []
  | (k, v) :: fs => jStrChars k ++ ':' :: (jChars v ++ jObjTail fs)

/-- The `, "key":value` continuations of an object body. -/
def jObjTail : List (String × JVal) → List Char
  | [] => []
  | (k, v) :: fs => ',' :: (jStrChars k ++ ':' :: (jChars v ++ jObjTail fs))
end

/-- `JSON.stringify`. -/
def jsonStringify (v : JVal) : String := String.mk (jChars v)

/-! ## JSON.parse

A fuel-indexed recursive-descent parser for the JSON grammar as the repository
uses it.  Two deliberate restrictions, both irrelevant to the round-trip
claims: numbers are integers (a fractional or exponent part is rejected rather
than read as a float), and inter-token whitespace is not skipped
(`JSON.stringify`, the only producer of the texts the code parses, emits
none). -/

/-- Is `c` a decimal digit? -/
def isDig (c : Char) : Bool := 48 ≤ c.toNat && c.toNat ≤ 57

/-- Value of a hex digit character, if it is one. -/
def hexNib (c : Char) : Option Nat :=
  if 48 ≤ c.toNat && c.toNat ≤ 57 then some (c.toNat - 48)
  else if 97 ≤ c.toNat && c.toNat ≤ 102 then some (c.toNat - 87)
  else if 65 ≤ c.toNat && c.toNat ≤ 70 then some (c.toNat - 55)
  else none

/-- The character a single-letter JSON escape denotes. -/
def jUnesc (c : Char) : Option Char :=
  if c = Char.ofNat 34 then some (Char.ofNat 34)
  else if c = Char.ofNat 92 then some (Char.ofNat 92)
  else if c = '/' then some '/'
  else if c = 'b' then some (Char.ofNat 8)
  else if c = 'f' then some (Char.ofNat 12)
  else if c = 'n' then some (Char.ofNat 10)
  else if c = 'r' then some (Char.ofNat 13)
  else if c = 't' then some (Char.ofNat 9)
  else none

/-- Parse the body of a string literal (after the opening quote), accumulating
the unescaped characters in reverse. -/
def jStrBody (acc : List Char) : List Char → Option (String × List Char)
  | [] => none
  | c :: rest =>
      if c = Char.ofNat 34 then some (String.mk acc.reverse, rest)
      else if c = Char.ofNat 92 then
        match rest with
        | [] => none
        | e :: r =>
            if e = 'u' then
              match r with
              | a :: b :: c2 :: d :: r2 =>
                  match hexNib a, hexNib b, hexNib c2, hexNib d with
                  | some na, some nb, some nc, some nd =>
                      jStrBody (Char.ofNat (((na * 16 + nb) * 16 + nc) * 16 + nd) :: acc) r2
                  | _, _, _, _ => none
              | _ => none
            else
              match jUnesc e with
              | some ch => jStrBody (ch :: acc) r
              | none => none
      else jStrBody (c :: acc) rest

/-- The longest leading run of decimal digits, and the remainder. -/
def takeDigs : List Char → List Char × List Char
  | [] => ([], [])
  | c :: rest =>
      if isDig c then
        let (ds, r) := takeDigs rest
        (c :: ds, r)
      else ([], c :: rest)

/-- The natural number a digit run denotes. -/
def digsToNat (ds : List Char) : Nat :=
  ds.foldl (fun acc c => acc * 10 + (c.toNat - 48)) 0

/-- Does the remainder try to extend a number with a fraction or exponent
(which this integer-only model rejects)? -/
def numExt : List Char → Bool
  | [] => false
  | c :: _ => c = '.' || c = 'e' || c = 'E'

/-- Parse an integer JSON number. -/
def jNum (cs : List Char) : Option (Int × List Char) :=
  match cs with
  | [] => none
  | c :: r =>
      if c = '-' then
        match takeDigs r with
        | ([], _) => none
        | (d :: ds, r') =>
            if numExt r' then none else some (-(digsToNat (d :: ds) : Int), r')
      else
        match takeDigs (c :: r) with
        | ([], _) => none
        | (d :: ds, r') =>
            if numExt r' then none else some ((digsToNat (d :: ds) : Int), r')

mutual
/-- Parse one JSON value; `fuel` strictly decreases on every recursive call
(any fuel beyond the input length is enough). -/
def jParse : Nat → List Char → Option (JVal × List Char)
  | 0, _ => none
  | _ + 1, [] => none
  | fuel + 1, c :: r =>
      if c = Char.ofNat 34 then
        (jStrBody [] r).map fun p => (JVal.jstr p.1, p.2)
      else if c = '[' then
        match r with
        | [] => none
        | d :: r' =>
            if d = ']' then some (.jarr [], r')
            else (jItems fuel (d :: r')).map fun p => (JVal.jarr p.1, p.2)
      else if c = Char.ofNat 123 then
        match r with
        | [] => none
        | d :: r' =>
            if d = Char.ofNat 125 then some (.jobj [], r')
            else (jPairs fuel (d :: r')).map fun p => (JVal.jobj p.1, p.2)
      else if c = 'n' then
        match r with
        | 'u' :: 'l' :: 'l' :: r' => some (.jnull, r')
        | _ => none
      else if c = 't' then
        match r with
        | 'r' :: 'u' :: 'e' :: r' => some (.jbool true, r')
        | _ => none
      else if c = 'f' then
        match r with
        | 'a' :: 'l' :: 's' :: 'e' :: r' => some (.jbool false, r')
        | _ => none
      else if c = '-' || isDig c then
        (jNum (c :: r)).map fun p => (JVal.jnum p.1, p.2)
      else none

/-- Parse one-or-more comma-separated array elements up to the closing `]`. -/
def jItems : Nat → List Char → Option (List JVal × List Char)
  | 0, _ => none
  | fuel + 1, cs =>
      match jParse fuel cs with
      | none => none
      | some (v, r) =>
          match r with
          | [] => none
          | d :: r' =>
              if d = ',' then (jItems fuel r').map fun p => (v :: p.1, p.2)
              else if d = ']' then some ([v], r')
              else none

/-- Parse one-or-more comma-separated object members up to the closing brace. -/
def jPairs : Nat → List Char → Option (List (String × JVal) × List Char)
  | 0, _ => none
  | fuel + 1, cs =>
      match cs with
      | [] => none
      | c :: r =>
          if c = Char.ofNat 34 then
            match jStrBody [] r with
            | none => none
            | some (k, r1) =>
                match r1 with
                | [] => none
                | d1 :: r2 =>
                    if d1 = ':' then
                      match jParse fuel r2 with
                      | none => none
                      | some (v, r3) =>
                          match r3 with
                          | [] => none
                          | d :: r4 =>
                              if d = ',' then
                                (jPairs fuel r4).map fun p => ((k, v) :: p.1, p.2)
                              else if d = Char.ofNat 125 then some ([(k, v)], r4)
                              else none
                    else none
          else none
end

/-- `JSON.parse`: the whole input must be consumed. -/
def jsonParse (s : String) : Option JVal :=
  match jParse (s.toList.length + 1) s.toList with
  | some (v, []) => some v
  | _ => none

/-- A remainder that cannot extend a just-parsed number: empty, or starting
with something that is neither a digit nor `.`/`e`/`E`.  Every JSON
delimiter (`,`, `]`, the closing brace, end of input) qualifies. -/
def numStop : List Char → Bool
  | [] => true
  | c :: _ => !(isDig c || c = '.' || c = 'e' || c = 'E')

/-! ## Base64 (`btoa` / `atob`)

`btoa` maps a string of Latin-1 code points (every code unit must be below
256, else it raises `InvalidCharacterError`) to its base64 form; `atob`
decodes it.  The decoder models the canonical padded alphabet that `btoa`
emits. -/

/-- The base64 alphabet, in index order. -/
def b64Alphabet : List Char :=
  ['A', 'B', 'C', 'D', 'E', 'F', 'G', 'H', 'I', 'J', 'K', 'L', 'M',
   'N', 'O', 'P', 'Q', 'R', 'S', 'T', 'U', 'V', 'W', 'X', 'Y', 'Z',
   'a', 'b', 'c', 'd', 'e', 'f', 'g', 'h', 'i', 'j', 'k', 'l', 'm',
   'n', 'o', 'p', 'q', 'r', 's', 't', 'u', 'v', 'w', 'x', 'y', 'z',
   '0', '1', '2', '3', '4', '5', '6', '7', '8', '9', '+', '/']

/-- The alphabet character of a 6-bit group. -/
def b64Char (n : Nat) : Char := b64Alphabet.getD n 'A'

/-- The 6-bit group of an alphabet character, if any. -/
def b64Idx (c : Char) : Option Nat := b64Alphabet.indexOf? c

/-- Base64 encoding of a byte list, three bytes to four characters, padded
with `=`. -/
def b64EncodeBytes : List Nat → List Char
  | [] => []
  | [a] => [b64Char (a / 4), b64Char (a % 4 * 16), '=', '=']
  | [a, b] => [b64Char (a / 4), b64Char (a % 4 * 16 + b / 16), b64Char (b % 16 * 4), '=']
  | a :: b :: c :: rest =>
      b64Char (a / 4) :: b64Char (a % 4 * 16 + b / 16) :: b64Char (b % 16 * 4 + c / 64)
        :: b64Char (c % 64) :: b64EncodeBytes rest

/-- Base64 decoding of a canonically padded character list. -/
def b64DecodeBytes : List Char → Option (List Nat)
  | [] => some []
  | c1 :: c2 :: c3 :: c4 :: rest =>
      match b64Idx c1, b64Idx c2 with
      | some n1, some n2 =>
          if c3 = '=' then
            if c4 = '=' ∧ rest = [] then some [n1 * 4 + n2 / 16] else none
          else
            match b64Idx c3 with
            | some n3 =>
                if c4 = '=' then
                  if rest = [] then some [n1 * 4 + n2 / 16, n2 % 16 * 16 + n3 / 4] else none
                else
                  match b64Idx c4 with
                  | some n4 =>
                      (b64DecodeBytes rest).map fun bs =>
                        (n1 * 4 + n2 / 16) :: (n2 % 16 * 16 + n3 / 4) :: (n3 % 4 * 64 + n4) :: bs
                  | none => none
            | none => none
      | _, _ => none
  | _ => none

/-- Is every code unit of the string below 256 (Latin-1, the domain of
`btoa`)? -/
def strLatin1 (s : String) : Bool := s.toList.all fun c => c.toNat < 256

/-- `btoa`: base64-encode a Latin-1 string; `none` models the
`InvalidCharacterError` raised on a code unit of 256 or more. -/
def btoa (s : String) : Option String :=
  if strLatin1 s then some (String.mk (b64EncodeBytes (s.toList.map Char.toNat)))
  else none

/-- `atob`: decode a canonically padded base64 string. -/
def atob (s : String) : Option String :=
  (b64DecodeBytes s.toList).map fun bs => String.mk (bs.map fun b => Char.ofNat b)

/-! ## Browser local storage and the redirect bridge -/

/-- `localStorage`, as a keyed store (key order is irrelevant to the code). -/
def lsGetItem : List (String × String) → String → Option String
  | [], _ => none
  | (k, v) :: rest, key => if k == key then some v else lsGetItem rest key

/-- `localStorage.setItem`. -/
def lsSetItem : List (String × String) → String → String → List (String × String)
  | [], key, v => [(key, v)]
  | (k, w) :: rest, key, v =>
      if k == key then (k, v) :: rest else (k, w) :: lsSetItem rest key v

/-- `localStorage.removeItem`. -/
def lsRemoveItem (st : List (String × String)) (key : String) : List (String × String) :=
  st.filter fun p => !(p.1 == key)

/-- The fixed storage key for the Ledger (`initGlobalParams`). -/
def storeFetchesAs : String := "fetch data before redirect: "

/-- The fixed storage key for the Result Accumulator (`initGlobalParams`). -/
def storeToReturnAs : String := "values to return: "

/-- The storage effect of `redirectOnCustomProviderButtonClick` (client
`utils.ts`): append the current step's Fetch Record to the Ledger, then
persist the Ledger and the Result Accumulator as base64-encoded JSON under
the two fixed keys, and the opaque state under `"state"` when local-storage
mode is active and the state is truthy.  The DOM form construction and the
`beforeRedirect` hook are browser effects outside the model. -/
def redirectOnCustomProviderButtonClick (st : List (String × String))
    (previousFetchData : List (String × JVal)) (name : String) (currentFetchData : JVal)
    (toReturnObject : List (String × JVal)) (storeState : Bool) (state : Option String) :
    Except JsErr (List (String × String)) :=
  let prevStored := assignKey previousFetchData name currentFetchData
  match btoa (jsonStringify (JVal.jobj prevStored)) with
  | none => .error .invalidChar
  | some encFetches =>
    match btoa (jsonStringify (JVal.jobj toReturnObject)) with
    | none => .error .invalidChar
    | some encToReturn =>
      let st2 := lsSetItem (lsSetItem st storeFetchesAs encFetches) storeToReturnAs encToReturn
      if storeState then
        match state with
        | some stv =>
            if stv == "" then .ok st2
            else
              match btoa stv with
              | none => .error .invalidChar
              | some encState => .ok (lsSetItem st2 "state" encState)
        | none => .ok st2
      else .ok st2

/-- The recovery section of `handleAfterRedirectForCustomProviders` (client
`utils.ts`, the try/catch before the server call): read both persisted
entries (a missing entry, a bad base64 payload or a JSON parse failure is
routed through `throwError`, which leaves the entries in place), then remove
both entries and hand back the decoded Ledger and Result Accumulator (the
code spreads them into fresh empty objects, which is the identity for the
decoded object values returned here). -/
def handleAfterRedirectRecover (st : List (String × String)) :
    Except JsErr (JVal × JVal × List (String × String)) :=
  match lsGetItem st storeFetchesAs with
  | none => .error (.thrown "Previously stored fetch data is unavailable")
  | some rawFetches =>
    match lsGetItem st storeToReturnAs with
    | none => .error (.thrown "Previously stored fetch data is unavailable")
    | some rawToReturn =>
      match (atob rawFetches).bind jsonParse, (atob rawToReturn).bind jsonParse with
      | some prev, some toRet =>
          .ok (prev, toRet, lsRemoveItem (lsRemoveItem st storeFetchesAs) storeToReturnAs)
      | _, _ =>
          .error (.thrown "error loading previous fetchData or previous return values")

/-! ## The Value Resolver: `getAllParams` and `removeNestedObjects`

`requestParamsType` maps each key to one of exactly four shapes: a literal
string, a reference array, a resolver function, or a library-call descriptor
(`{this, generate}`).  Resolver and generator functions are modelled as Lean
functions of the same four data arguments the code passes them
(`givenParams`, the params resolved so far, the Ledger, the current Fetch
Record), returning the awaited value (`none` for `undefined`); the named
library functions a descriptor requests are opaque to the model, but the
registry membership check of `getRequiredFunctions` is kept. -/

/-- One parameter specification (the value type of `requestParamsType`). -/
inductive ParamVal where
  | lit : String → ParamVal
  | ref : List String → ParamVal
  | fn : (List (String × JVal) → List (String × JVal) → List (String × JVal) → JVal →
      Option JVal) → ParamVal
  | gen : List String →
      (List (String × JVal) → List (String × JVal) → List (String × JVal) → JVal →
        Option JVal) → ParamVal

/-- The catalog of library functions `getRequiredFunctions` can hand out. -/
def knownFunctionNames : List String :=
  ["getSignature", "getNonce", "getTimeStamp", "parseToken", "constructOAuthData",
   "baseString", "baseUrl", "mergeObjects", "parameterString", "decodeQueryParams",
   "sortObject", "signingKey", "pE", "convertToUrlParams", "convertStringsToObject",
   "cleanObject", "createFormWithParams", "decodeAndGetParams", "decodeAllURIComponents",
   "getConfig"]

/-- The reference walk `for (const v of value) reqProperty = reqProperty[v]`
of `getAllParams`.  Note that it iterates over every segment of the
reference — including segment 0 (the step name) and segment 1 (the
`request`/`response` selector) — starting from the already-selected half.
A `TypeError` raised by a segment is caught and rethrown through
`throwError`. -/
def refWalk : List String → Option JVal → Except JsErr (Option JVal)
  | [], cur => .ok cur
  | seg :: rest, cur =>
      match getProp cur seg with
      | .ok next => refWalk rest next
      | .error _ =>
          .error (.thrown ("Parameter " ++ seg ++ " not found in previous fetches"))

/-- The start of a reference resolution: `specificParser` when given,
otherwise `previousFetchData[value[0]][value[1]]` (a raw property read that
can `TypeError`), with the `"request"`/`"response"` second-segment gate. -/
def refStart (previousFetchData : List (String × JVal)) (specificParser : Option JVal) :
    List String → Except JsErr (Option JVal)
  | path =>
      match specificParser with
      | some p => .ok (some p)
      | none =>
          match path with
          | p0 :: p1 :: _ =>
              if p1 = "request" ∨ p1 = "response" then
                getProp (jsLookup previousFetchData p0) p1
              else .ok (some JVal.jnull)
          | _ => .ok (some JVal.jnull)

/-- The `for (let key in params)` resolution loop of `getAllParams`,
accumulating `finalUrlParams`. -/
def getAllParamsLoop (isServer : Bool) (givenParams : List (String × JVal))
    (previousFetchData : List (String × JVal)) (currentFetchData : JVal)
    (specificParser : Option JVal) :
    List (String × ParamVal) → List (String × JVal) → Except JsErr (List (String × JVal))
  | [], acc => .ok acc
  | (key, value) :: rest, acc =>
      match value with
      | .lit s =>
          getAllParamsLoop isServer givenParams previousFetchData currentFetchData
            specificParser rest (assignKey acc key (.jstr s))
      | .ref path =>
          if path.length < 2 ∧ specificParser.isNone then
            .error (.thrown "Too less parameters given to access the previous request or response. minimum 2 are required")
          else
            match refStart previousFetchData specificParser path with
            | .error e => .error e
            | .ok start =>
                if !jsTruthyO start then
                  .error (.thrown "The second Parameter of the array in the fromPreviousFetches should always be either 'request' or 'response'")
                else
                  match refWalk path start with
                  | .error e => .error e
                  | .ok final =>
                      if jsTruthyO final then
                        getAllParamsLoop isServer givenParams previousFetchData
                          currentFetchData specificParser rest
                          (assignKey acc key (final.getD .jnull))
                      else
                        -- "Invalid key Found": building the custom message
                        -- re-reads `previousFetchData[value[0]][value[1]]`,
                        -- which itself TypeErrors when the entry is absent
                        match getProp (jsLookup previousFetchData (path.headD "undefined"))
                            ((path.drop 1).headD "undefined") with
                        | .error e => .error e
                        | .ok _ => .error (.thrown "Invalid key Found")
      | .fn f =>
          match f givenParams acc previousFetchData currentFetchData with
          | some v =>
              if jsTruthy v then
                getAllParamsLoop isServer givenParams previousFetchData currentFetchData
                  specificParser rest (assignKey acc key v)
              else .error (.thrown "Function returned nothing")
          | none => .error (.thrown "Function returned nothing")
      | .gen names g =>
          if names.all (fun n => knownFunctionNames.contains n) then
            match g givenParams acc previousFetchData currentFetchData with
            | some v =>
                if jsTruthy v then
                  getAllParamsLoop isServer givenParams previousFetchData currentFetchData
                    specificParser rest (assignKey acc key v)
                else .error (.thrown "Function returned nothing")
            | none => .error (.thrown "Function returned nothing")
          else .error (.thrown "Function not found")

/-- `removeNestedObjects`: keep only the entries whose `typeof` is not
`"object"` (so arrays and `null` are dropped too), rebuilding the object by
spreading. -/
def removeNestedObjects (obj : List (String × JVal)) : List (String × JVal) :=
  obj.foldl
    (fun acc p => if jsTypeof p.2 == "object" then acc else assignKey acc p.1 p.2) []

/-- `getAllParams`: run the resolution loop from an empty map, then strip the
structured values with `removeNestedObjects`. -/
def getAllParams (isServer : Bool) (givenParams : List (String × JVal))
    (params : List (String × ParamVal)) (previousFetchData : List (String × JVal))
    (currentFetchData : JVal) (specificParser : Option JVal) :
    Except JsErr (List (String × JVal)) :=
  (getAllParamsLoop isServer givenParams previousFetchData currentFetchData
      specificParser params []).map removeNestedObjects

/-! ## Concrete fixtures used by the witnesses -/

/-- A one-entry Ledger: `step1` recorded a request and a `{token: "T"}`
response. -/
def demoLedger : List (String × JVal) :=
  [("step1", JVal.jobj [("request", JVal.jobj [("method", JVal.jstr "GET")]),
                        ("response", JVal.jobj [("token", JVal.jstr "T")])])]

/-- A Fetch Record for a second step. -/
def demoRecord : JVal :=
  JVal.jobj [("request", JVal.jobj [("method", JVal.jstr "POST")]),
             ("response", JVal.jstr "done")]

/-- A small Result Accumulator. -/
def demoToReturn : List (String × JVal) := [("out", JVal.jstr "x")]

/-! ## URL encoding (`encodeURIComponent`, `pE`, `URLSearchParams`) -/

/-- Uppercase hex digit for a nibble, as used by percent-encoding. -/
def hexDigitUpper (n : Nat) : Char :=
  if n < 10 then Char.ofNat (48 + n) else Char.ofNat (55 + n)

/-- `%HH` for one byte (uppercase hex). -/
def pctByte (n : Nat) : List Char :=
  ['%', hexDigitUpper (n / 16), hexDigitUpper (n % 16)]

/-- The UTF-8 bytes of one code point. -/
def utf8Bytes (c : Char) : List Nat :=
  let n := c.toNat
  if n < 128 then [n]
  else if n < 2048 then [192 + n / 64, 128 + n % 64]
  else if n < 65536 then [224 + n / 4096, 128 + (n / 64) % 64, 128 + n % 64]
  else [240 + n / 262144, 128 + (n / 4096) % 64, 128 + (n / 64) % 64, 128 + n % 64]

/-- The characters `encodeURIComponent` leaves unescaped:
`A-Z a-z 0-9 - _ . ! ~ * ' ( )`. -/
def isUriUnreserved (c : Char) : Bool :=
  (65 ≤ c.toNat && c.toNat ≤ 90) || (97 ≤ c.toNat && c.toNat ≤ 122)
    || (48 ≤ c.toNat && c.toNat ≤ 57)
    || c = '-' || c = '_' || c = '.' || c = Char.ofNat 33 || c = Char.ofNat 126
    || c = Char.ofNat 42 || c = Char.ofNat 39 || c = Char.ofNat 40 || c = Char.ofNat 41

/-- `encodeURIComponent`: unreserved characters stay, everything else is
percent-encoded byte-wise over its UTF-8 encoding. -/
def encodeURIComponent (s : String) : String :=
  String.mk (s.data.flatMap fun c =>
    if isUriUnreserved c then [c] else (utf8Bytes c).flatMap pctByte)

/-- `pE` (src/client/types.ts): `encodeURIComponent` followed by replacing
`! * ' ( )` with their percent codes (RFC 3986 strictness). -/
def pE (s : String) : String :=
  ((((encodeURIComponent s).replace (String.mk [Char.ofNat 33]) "%21").replace
        (String.mk [Char.ofNat 42]) "%2A").replace
      (String.mk [Char.ofNat 39]) "%27").replace (String.mk [Char.ofNat 40]) "%28"
    |>.replace (String.mk [Char.ofNat 41]) "%29"

mutual

/-- JavaScript `String()` coercion of a JSON-like value: strings verbatim,
numbers in decimal, `true`/`false`, `"null"` for null, arrays joined by commas
with null elements rendered empty, plain objects as `"[object Object]"`. -/
def jsToStringPrim : JVal → String
  | .jstr s => s
  | .jnum i => String.mk (intChars i)
  | .jbool true => "true"
  | .jbool false => "false"
  | .jnull => "null"
  | .jarr xs => jsArrJoin xs
  | .jobj _ => "[object Object]"

def jsArrJoin : List JVal → String
  | [] => ""
  | [JVal.jnull] => ""
  | [x] => jsToStringPrim x
  | JVal.jnull :: y :: r => "," ++ jsArrJoin (y :: r)
  | x :: y :: r => jsToStringPrim x ++ "," ++ jsArrJoin (y :: r)

end

/-- `convertToUrlParams`: build `?k=enc(v)&k=enc(v)&…` by appending one
`key=value&` chunk per entry (keys are not encoded, values go through `pE` or
`encodeURIComponent`), then `slice(0, -1)` drops the final character — the
trailing `&`, or the `?` itself when there are no entries. -/
def convertToUrlParams (urlParams : List (String × JVal)) (pe : Bool) : String :=
  (urlParams.foldl
      (fun acc p =>
        acc ++ p.1 ++ "=" ++
          (if pe then pE (jsToStringPrim p.2) else encodeURIComponent (jsToStringPrim p.2))
          ++ "&")
      "?").dropRight 1

/-- The characters `application/x-www-form-urlencoded` serialization leaves
unescaped: `A-Z a-z 0-9 * - . _` (space becomes `+`). -/
def isFormUnreserved (c : Char) : Bool :=
  (65 ≤ c.toNat && c.toNat ≤ 90) || (97 ≤ c.toNat && c.toNat ≤ 122)
    || (48 ≤ c.toNat && c.toNat ≤ 57)
    || c = Char.ofNat 42 || c = '-' || c = '.' || c = '_'

/-- Form-url-encode one string. -/
def formEncodeStr (s : String) : String :=
  String.mk (s.data.flatMap fun c =>
    if isFormUnreserved c then [c]
    else if c = ' ' then ['+']
    else (utf8Bytes c).flatMap pctByte)

/-- `URLSearchParams.prototype.toString` over a pair list. -/
def urlSearchParamsToString (ps : List (String × String)) : String :=
  String.intercalate "&" (ps.map fun p => formEncodeStr p.1 ++ "=" ++ formEncodeStr p.2)

/-- The replacement character U+FFFD used when decoding invalid UTF-8. -/
def uRepl : Char := Char.ofNat 65533

/-- Is `b` a UTF-8 continuation byte? -/
def isCont (b : Nat) : Bool := 128 ≤ b && b < 192

/-- Decode one UTF-8 sequence starting at byte `b`: the decoded character and
how many further bytes were consumed (malformed input yields U+FFFD). -/
def utf8DecodeStep (b : Nat) (rest : List Nat) : Char × Nat :=
  if b < 128 then (Char.ofNat b, 0)
  else if 194 ≤ b && b ≤ 223 then
    match rest with
    | b2 :: _ => if isCont b2 then (Char.ofNat ((b % 32) * 64 + b2 % 64), 1) else (uRepl, 0)
    | _ => (uRepl, 0)
  else if 224 ≤ b && b ≤ 239 then
    match rest with
    | b2 :: b3 :: _ =>
        if isCont b2 && isCont b3 then
          (Char.ofNat ((b % 16) * 4096 + (b2 % 64) * 64 + b3 % 64), 2)
        else (uRepl, 0)
    | _ => (uRepl, 0)
  else if 240 ≤ b && b ≤ 244 then
    match rest with
    | b2 :: b3 :: b4 :: _ =>
        if isCont b2 && isCont b3 && isCont b4 then
          (Char.ofNat ((b % 8) * 262144 + (b2 % 64) * 4096 + (b3 % 64) * 64 + b4 % 64), 3)
        else (uRepl, 0)
    | _ => (uRepl, 0)
  else (uRepl, 0)

/-- Decode a UTF-8 byte sequence to characters. -/
def utf8Decode : List Nat → List Char
  | [] => []
  | b :: rest =>
      let step := utf8DecodeStep b rest
      step.1 :: utf8Decode (rest.drop step.2)
termination_by l => l.length
decreasing_by simp [List.length_drop]; omega

/-- One form-url-decoded chunk: `+` stands for space, `%HH` for a byte, any
other character contributes its UTF-8 bytes; the byte sequence is then
UTF-8-decoded. -/
def formDecodeBytes : List Char → List Nat
  | [] => []
  | '+' :: r => 32 :: formDecodeBytes r
  | '%' :: a :: b :: r =>
      match hexNib a, hexNib b with
      | some na, some nb => (na * 16 + nb) :: formDecodeBytes r
      | _, _ => utf8Bytes '%' ++ formDecodeBytes (a :: b :: r)
  | c :: r => utf8Bytes c ++ formDecodeBytes r

/-- Form-url-decode one string. -/
def formDecodeStr (s : String) : String := String.mk (utf8Decode (formDecodeBytes s.data))

/-- `new URLSearchParams(string)`: strip one leading `?`, split on `&`, skip
empty chunks, split each chunk at its first `=` (missing `=` means empty
value), and form-url-decode names and values. -/
def urlSearchParamsParse (s : String) : List (String × String) :=
  let body := if s.startsWith "?" then s.drop 1 else s
  (body.splitOn "&").filterMap fun chunk =>
    if chunk = "" then none
    else
      match chunk.splitOn "=" with
      | [] => some (formDecodeStr chunk, "")
      | [n] => some (formDecodeStr n, "")
      | n :: rest => some (formDecodeStr n, formDecodeStr (String.intercalate "=" rest))

/-! ## encodeBody -/

/-- The `objectType | string` union a request body inhabits. -/
inductive BodyVal where
  | str : String → BodyVal
  | obj : List (String × JVal) → BodyVal
deriving Inhabited

/-- View a body as a JSON value (for `JSON.stringify(body)`). -/
def bodyToJVal : BodyVal → JVal
  | .str s => .jstr s
  | .obj o => .jobj o

/-- `typeof body === "string"`. -/
def bodyIsString : BodyVal → Bool
  | .str _ => true
  | .obj _ => false

/-- The pair list `new URLSearchParams(body)` holds: an object contributes its
entries with `String()`-coerced values, a string is parsed as a query string. -/
def urlSearchPairs : BodyVal → List (String × String)
  | .obj o => o.map fun p => (p.1, jsToStringPrim p.2)
  | .str s => urlSearchParamsParse s

/-- `encodeBody`: `"json"` → `JSON.stringify(body)`; `"url"` →
`new URLSearchParams(body).toString()`; `"text"` with a string body → the body
itself; anything else → `throwError("Invalid body encoding format specified",
onError, …)`, i.e. the handler is invoked and the error thrown (the trailing
`return ""` in the source is unreachable). -/
def encodeBody (body : BodyVal) (bodyEncodingFormat : String) : Except JsErr String :=
  if bodyEncodingFormat == "json" then .ok (jsonStringify (bodyToJVal body))
  else if bodyEncodingFormat == "url" then .ok (urlSearchParamsToString (urlSearchPairs body))
  else if bodyEncodingFormat == "text" && bodyIsString body then
    .ok (match body with | .str s => s | .obj _ => "")
  else .error (.thrown "Invalid body encoding format specified")

/-! ## waitAndRetryRequest -/

/-- The `retryContextType` record passed to `backOffStrategy` and `onRetry`.
Wall-clock readings (`totalElapsedTime`, `lastAttemptTimeStamp`) are abstracted
to the values an instantaneous clock would give. -/
structure RetryCtx where
  attemptNumber : Int
  error : JsErr
  totalElapsedTime : Int
  lastAttemptTimeStamp : Int
  retryDelay : Int
  maxRetries : Int
  previousFetchData : List (String × JVal)

/-- The message carried by an error value (what the handler is shown). -/
def jsErrMsg : JsErr → String
  | .thrown m => m
  | .typeError m => m
  | .abortError => "AbortError"
  | .netError m => m
  | .invalidChar => "InvalidCharacterError"

/-- Observable side effects of one `waitAndRetryRequest` run, in order. -/
inductive REvent where
  /-- `observability.onRequestStart(currentFetchData)` was invoked. -/
  | evRequestStart : REvent
  /-- One `fetch` call (an HTTP attempt) was issued. -/
  | evHttpAttempt : REvent
  /-- One user validator was invoked. -/
  | evValidator : REvent
  /-- The configured error handler was invoked with this message. -/
  | evHandler : String → REvent
  /-- `backOffStrategy` was invoked and returned this delay. -/
  | evBackoff : Int → REvent
  /-- `onRetry(retryContext)` was invoked. -/
  | evOnRetry : REvent
  /-- The retry sleep of this many milliseconds was awaited. -/
  | evSleep : Int → REvent
deriving Repr, DecidableEq

def isHttpAttempt : REvent → Bool
  | .evHttpAttempt => true
  | _ => false

def isSleep : REvent → Bool
  | .evSleep _ => true
  | _ => false

def isOnRetry : REvent → Bool
  | .evOnRetry => true
  | _ => false

def isValidatorEv : REvent → Bool
  | .evValidator => true
  | _ => false

/-- What one `fetch` (plus parse) does on a given attempt: either the promise
rejects (network failure or the timeout's abort), or a `Response` arrives with
a status, its `ok` flag, its JSON rendering (for the non-ok error message) and
the outcome of parsing its body. -/
inductive FetchOutcome where
  | netError : JsErr → FetchOutcome
  | resp : Int → Bool → String → Except JsErr JVal → FetchOutcome

/-- Everything `waitAndRetryRequest` interacts with. -/
structure RetryEnv where
  /-- Attempt index ↦ what the network does on that attempt. -/
  fetch : Nat → FetchOutcome
  /-- `validateResponse`, each applied to `previousFetchData`. -/
  validators : List (List (String × JVal) → Bool)
  previousFetchData : List (String × JVal)
  maxRetries : Int
  backOffStrategy : Int → RetryCtx → Int
  retryOn : JsErr → Int → Bool
  /-- Is `observability.onRequestStart` set? -/
  hasOnRequestStart : Bool
  /-- Is `onRetry` non-null? -/
  hasOnRetry : Bool

/-- Run the `for (const value of validateResponse)` loop: each validator is
invoked on `previousFetchData`; the first `false` result reaches
`throwError("Response failed user validation.", onErrorInResponse)`. -/
def runValidators (pfd : List (String × JVal)) :
    List (List (String × JVal) → Bool) → Except JsErr Unit × List REvent
  | [] => (.ok (), [])
  | v :: rest =>
      if v pfd then
        let r := runValidators pfd rest
        (r.1, REvent.evValidator :: r.2)
      else
        (.error (.thrown "Response failed user validation."),
          [REvent.evValidator, REvent.evHandler "Response failed user validation."])

/-- One iteration of the `while` body up to the end of the `try` block:
`onRequestStart` if configured, then `fetch`; a non-ok response records the
status and reaches `throwError("Response has some error:" + JSON.stringify(
providerResponse), …)` (handler invoked, then thrown into the `catch`); an ok
response is parsed and validated. Returns the try-block result, the updated
`lastRequestStatusCode`, and the events in order. -/
def runAttempt (env : RetryEnv) (n : Nat) (lastStatus : Int) :
    Except JsErr JVal × Int × List REvent :=
  let startEvs := if env.hasOnRequestStart then [REvent.evRequestStart] else []
  match env.fetch n with
  | .netError e => (.error e, lastStatus, startEvs ++ [REvent.evHttpAttempt])
  | .resp status ok render parsed =>
      if !ok then
        (.error (.thrown ("Response has some error:" ++ render)), status,
          startEvs ++ [REvent.evHttpAttempt,
            REvent.evHandler ("Response has some error:" ++ render)])
      else
        match parsed with
        | .error e => (.error e, status, startEvs ++ [REvent.evHttpAttempt])
        | .ok v =>
            let vr := runValidators env.previousFetchData env.validators
            match vr.1 with
            | .ok _ => (.ok v, status, startEvs ++ REvent.evHttpAttempt :: vr.2)
            | .error e => (.error e, status, startEvs ++ REvent.evHttpAttempt :: vr.2)

/-- The non-thrown terminal payload `{error: "Max Retries Reached"}`. -/
def maxRetriesPayload : JVal := JVal.jobj [("error", JVal.jstr "Max Retries Reached")]

/-- The `while (retries < maxRetries)` loop.  `fuel` is the number of
iterations the guard still allows (`maxRetries - retries`, clamped at zero);
`retries` is the current attempt index, `lastRetryDelay` and `lastStatus` the
mutable locals.  In the `catch` block `retries` is incremented first, the
backoff delay is computed unconditionally, and only then is `retryOn`
consulted: `false` re-throws the error through the handler; `true` runs
`onRetry` (when non-null) and awaits the delay before looping. -/
def waitAndRetryGo (env : RetryEnv) :
    Nat → Nat → Int → Int → Except JsErr JVal × List REvent
  | 0, _, _, _ => (.ok maxRetriesPayload, [])
  | fuel + 1, retries, lastRetryDelay, lastStatus =>
      let a := runAttempt env retries lastStatus
      match a.1 with
      | .ok v => (.ok v, a.2.2)
      | .error e =>
          let ctx : RetryCtx :=
            ⟨(retries : Int) + 1, e, 0, 0, lastRetryDelay, env.maxRetries,
              env.previousFetchData⟩
          let delay := env.backOffStrategy ((retries : Int) + 1) ctx
          if env.retryOn e a.2.1 then
            let r := waitAndRetryGo env fuel (retries + 1) delay a.2.1
            (r.1,
              a.2.2 ++ [REvent.evBackoff delay]
                ++ (if env.hasOnRetry then [REvent.evOnRetry] else [])
                ++ [REvent.evSleep delay] ++ r.2)
          else
            (.error e, a.2.2 ++ [REvent.evBackoff delay, REvent.evHandler (jsErrMsg e)])

/-- `waitAndRetryRequest`: start with `retries = 0`, `lastRetryDelay = 0`,
`lastRequestStatusCode = 0`; when the guard fails return
`{error: "Max Retries Reached"}` without throwing. -/
def waitAndRetryRequest (env : RetryEnv) : Except JsErr JVal × List REvent :=
  waitAndRetryGo env env.maxRetries.toNat 0 0 0

/-! ## initParams retry defaults -/

/-- The optional `retries` object of a request specification. -/
structure RetriesSpec where
  maxRetries : Option Int
  backOffStrategy : Option (Int → RetryCtx → Int)
  retryOn : Option (JsErr → Int → Bool)

/-- The retry-relevant locals `initParams` computes (source lines 303-321):
`timeout = request.timeout ?? globalTimeout`; `retriesObject = request.retries
?? {}` (an object, hence always truthy); `maxRetries` falls back to `2` when
the field is absent or falsy (the number `0`); `backOffStrategy` falls back to
`() => timeout`; `retryOn` falls back to retrying exactly on statuses 429 and
503. -/
structure InitRetry where
  timeout : Int
  maxRetries : Int
  backOffStrategy : Int → RetryCtx → Int
  retryOn : JsErr → Int → Bool

def initRetryParams (globalTimeout : Int) (reqTimeout : Option Int)
    (retries : Option RetriesSpec) : InitRetry :=
  let timeout := reqTimeout.getD globalTimeout
  let retriesObject := retries.getD ⟨none, none, none⟩
  { timeout := timeout
    maxRetries :=
      match retriesObject.maxRetries with
      | some m => if m = 0 then 2 else m
      | none => 2
    backOffStrategy := retriesObject.backOffStrategy.getD fun _ _ => timeout
    retryOn :=
      retriesObject.retryOn.getD fun _ statusCode =>
        statusCode == 429 || statusCode == 503 }

/-! ## storeValuesToReturn -/

/-- One `toReturn` entry: the string `"all"` or an array of path segments. -/
inductive RetSpec where
  | all : RetSpec
  | path : List String → RetSpec

/-- The inner `value.forEach((val) => …)` walk: before applying a segment the
current node is checked — a string or `undefined` reaches
`throwError("Error while trying to access the response property, " + val, …)`;
otherwise `reqProperty = reqProperty[val]` runs inside `try`, whose `catch`
(a `TypeError` on `null`) reaches the same `throwError`. -/
def walkToReturn : List String → Option JVal → Except JsErr (Option JVal)
  | [], cur => .ok cur
  | seg :: rest, cur =>
      match cur with
      | none =>
          .error (.thrown ("Error while trying to access the response property, " ++ seg))
      | some (.jstr _) =>
          .error (.thrown ("Error while trying to access the response property, " ++ seg))
      | some v =>
          match getProp (some v) seg with
          | .ok next => walkToReturn rest next
          | .error _ =>
              .error (.thrown ("Error while trying to access the response property, " ++ seg))

/-- The `Object.entries(returnAfterResponse).forEach` loop, accumulating
`toReturnObject` (values may be `undefined`, which `Object.assign` copies). -/
def storeValuesToReturnLoop (providerResponse : Option JVal) :
    List (String × RetSpec) → List (String × Option JVal) →
    Except JsErr (List (String × Option JVal))
  | [], acc => .ok acc
  | (key, spec) :: rest, acc =>
      match spec with
      | .all => storeValuesToReturnLoop providerResponse rest (assignKeyO acc key providerResponse)
      | .path segs =>
          match walkToReturn segs providerResponse with
          | .ok v => storeValuesToReturnLoop providerResponse rest (assignKeyO acc key v)
          | .error e => .error e

/-- `storeValuesToReturn`: project the configured extraction paths from the
parsed response into a fresh `toReturnObject`. -/
def storeValuesToReturn (returnAfterResponse : List (String × RetSpec))
    (providerResponse : Option JVal) : Except JsErr (List (String × Option JVal)) :=
  storeValuesToReturnLoop providerResponse returnAfterResponse []

/-! ## The afterRedirect pipeline (`getCustomProviderUserInfo`) -/

/-- One entry of the `urls.afterRedirect` object: the url (the object key) and
the fields of its `redirectUrlObjectType` details that the pipeline reads,
with dynamic request parameters as `ParamVal`s.  Optional fields keep their
`??` defaults at the use site, as `initParams` does. -/
structure StepSpec where
  urlKey : String
  name : Option String
  method : String
  percentEncode : Option Bool
  urlParams : List (String × ParamVal)
  headers : List (String × ParamVal)
  body : Sum String (List (String × ParamVal))
  bodyEncodingFormat : Option String
  timeout : Option Int
  retries : Option RetriesSpec
  validators : List (List (String × JVal) → Bool)
  toReturn : List (String × RetSpec)

/-- The Ledger key a completed step is stored under: `details.name ?? url`. -/
def stepName (step : StepSpec) : String := step.name.getD step.urlKey

/-- Object spread `{...a, ...b}`. -/
def jsSpread (a b : List (String × JVal)) : List (String × JVal) :=
  b.foldl (fun acc p => assignKey acc p.1 p.2) a

/-- The fresh `currentFetchData` object `initParams` builds. -/
def cfd0 : JVal :=
  JVal.jobj
    [("request",
        JVal.jobj
          [("method", JVal.jstr ""), ("url", JVal.jstr ""),
           ("urlParams", JVal.jobj []), ("headers", JVal.jobj []),
           ("body", JVal.jobj [])]),
     ("response", JVal.jobj [])]

/-- One iteration of the `for (const url in globals.reqUrls)` loop of
`getCustomProviderUserInfo`: resolve `urlParams`, `headers` and the body
through `getAllParams` (the first step spreads `allParams` into
`givenParams`; `allParams` is always passed as the `specificParser`), build
the request url via `convertToUrlParams`, encode the body, run
`waitAndRetryRequest` (no proxy), and project `toReturn` via
`storeValuesToReturn`.  Returns the Fetch Record
`{request: {...}, response}` and the Result Accumulator patch. -/
def runStep (globalTimeout : Int) (givenParams allParams : List (String × JVal))
    (net : Nat → FetchOutcome) (hasORS hasOR : Bool) (isFirst : Bool)
    (step : StepSpec) (previousFetchData : List (String × JVal)) :
    Except JsErr (JVal × List (String × Option JVal)) := do
  let effGiven := if isFirst then jsSpread givenParams allParams else givenParams
  let sp := some (JVal.jobj allParams)
  let ir := initRetryParams globalTimeout step.timeout step.retries
  let urlParams ← getAllParams true effGiven step.urlParams previousFetchData cfd0 sp
  let headers ← getAllParams true effGiven step.headers previousFetchData cfd0 sp
  let bodyVal ← match step.body with
    | .inl s => pure (BodyVal.str s)
    | .inr ps => (getAllParams true effGiven ps previousFetchData cfd0 sp).map BodyVal.obj
  let requestUrl := step.urlKey ++ convertToUrlParams urlParams (step.percentEncode.getD false)
  let _requestBody ← encodeBody bodyVal (step.bodyEncodingFormat.getD "json")
  let env : RetryEnv :=
    ⟨net, step.validators, previousFetchData, ir.maxRetries, ir.backOffStrategy,
      ir.retryOn, hasORS, hasOR⟩
  let resp ← (waitAndRetryRequest env).1
  let patch ← storeValuesToReturn step.toReturn (some resp)
  let requestRecord := JVal.jobj
    [("method", JVal.jstr step.method), ("url", JVal.jstr requestUrl),
     ("urlParams", JVal.jobj urlParams), ("headers", JVal.jobj headers),
     ("body", bodyToJVal bodyVal)]
  pure (JVal.jobj [("request", requestRecord), ("response", resp)], patch)

/-- The step loop: after each completed step the Ledger becomes
`{...previousFetchData, [params.name]: params.currentFetchData}` and the
Result Accumulator is merged with the step's `toReturn` projection; any step
error aborts the run.  `net i` is the network behaviour of step `i`. -/
def runAfterRedirectSteps (globalTimeout : Int)
    (givenParams allParams : List (String × JVal)) (net : Nat → Nat → FetchOutcome)
    (hasORS hasOR : Bool) :
    Nat → List StepSpec → List (String × JVal) → List (String × Option JVal) →
    Except JsErr (List (String × JVal) × List (String × Option JVal))
  | _, [], pfd, toRet => .ok (pfd, toRet)
  | i, step :: rest, pfd, toRet =>
      match runStep globalTimeout givenParams allParams (net i) hasORS hasOR
          (i == 0) step pfd with
      | .error e => .error e
      | .ok out =>
          runAfterRedirectSteps globalTimeout givenParams allParams net hasORS hasOR
            (i + 1) rest (assignKey pfd (stepName step) out.1)
            (out.2.foldl (fun a p => assignKeyO a p.1 p.2) toRet)

/-- `getCustomProviderUserInfo`: run every afterRedirect step starting from an
empty Ledger and an empty Result Accumulator, then add `name: provider` to the
accumulator.  (The client-side loop of `handleCustomProvidersLoginButtonClick`
grows its Ledger with the identical
`{...previousFetchData, [name]: currentFetchData}` update.) -/
def getCustomProviderUserInfo (provider : String) (globalTimeout : Int)
    (givenParams allParams : List (String × JVal)) (net : Nat → Nat → FetchOutcome)
    (hasORS hasOR : Bool) (steps : List StepSpec) :
    Except JsErr (List (String × JVal) × List (String × Option JVal)) :=
  match runAfterRedirectSteps globalTimeout givenParams allParams net hasORS hasOR
      0 steps [] [] with
  | .error e => .error e
  | .ok out => .ok (out.1, assignKeyO out.2 "name" (some (.jstr provider)))

/-! ## Pipeline fixtures -/

/-- A minimal afterRedirect step for concrete runs. -/
def demoStep (n : String) : StepSpec :=
  ⟨"https://e/" ++ n, some n, "GET", none, [], [], .inr [], none, none, none, [], []⟩

/-- A network that always answers 200 with the parsed body `"ok"`. -/
def demoNet : Nat → Nat → FetchOutcome :=
  fun _ _ => .resp 200 true "" (.ok (JVal.jstr "ok"))

/-- The Fetch Record a completed `demoStep n` writes. -/
def demoStepRecord (n : String) : JVal :=
  JVal.jobj
    [("request",
        JVal.jobj
          [("method", JVal.jstr "GET"), ("url", JVal.jstr ("https://e/" ++ n)),
           ("urlParams", JVal.jobj []), ("headers", JVal.jobj []),
           ("body", JVal.jobj [])]),
     ("response", JVal.jstr "ok")]

/-! ## Retry fixtures -/

/-- Permanent 500, always retryable, three retries allowed. -/
def demoExhaustEnv : RetryEnv :=
  ⟨fun _ => .resp 500 false "R" (.ok JVal.jnull), [], [], 3, fun _ _ => 7,
    fun _ _ => true, true, true⟩

/-- Permanent 500, never retryable. -/
def demoFatalEnv : RetryEnv :=
  ⟨fun _ => .resp 500 false "R" (.ok JVal.jnull), [], [], 2, fun _ _ => 7,
    fun _ _ => false, true, true⟩

/-- A healthy network but `maxRetries = 0`. -/
def demoZeroEnv : RetryEnv :=
  ⟨fun _ => .resp 200 true "" (.ok (JVal.jstr "ok")), [], [], 0, fun _ _ => 7,
    fun _ _ => true, true, true⟩

/-! ## Round-trip of the JSON codec -/

theorem natCharsGo_acc (n : Nat) : ∀ acc : List Char,
    natCharsGo n acc = natChars n ++ acc := by
  induction n using Nat.strongRecOn with
  | _ n ih =>
    intro acc
    by_cases h : n < 10
    · rw [natCharsGo, if_pos h, natChars, natCharsGo, if_pos h]
      rfl
    · conv_lhs => rw [natCharsGo, if_neg h]
      conv_rhs => rw [natChars, natCharsGo, if_neg h]
      rw [ih (n / 10) (Nat.div_lt_self (by omega) (by omega)),
        ih (n / 10) (Nat.div_lt_self (by omega) (by omega))]
      simp

theorem natChars_unfold (n : Nat) :
    natChars n = (if n < 10 then [] else natChars (n / 10)) ++ [Char.ofNat (48 + n % 10)] := by
  by_cases h : n < 10
  · rw [natChars, natCharsGo, if_pos h, if_pos h]
    rfl
  · rw [natChars, natCharsGo, if_neg h, if_neg h, natCharsGo_acc]

theorem natChars_ne_nil (n : Nat) : natChars n ≠ [] := by
  rw [natChars_unfold]
  simp

theorem digChar_spec (k : Nat) (h : k < 10) :
    (Char.ofNat (48 + k)).toNat = 48 + k ∧ isDig (Char.ofNat (48 + k)) = true := by
  interval_cases k <;> exact ⟨by decide, by decide⟩

theorem natChars_digits (n : Nat) : ∀ c ∈ natChars n, isDig c = true := by
  induction n using Nat.strongRecOn with
  | _ n ih =>
    rw [natChars_unfold]
    intro c hc
    rcases List.mem_append.mp hc with h | h
    · by_cases h10 : n < 10
      · simp [h10] at h
      · exact ih (n / 10) (Nat.div_lt_self (by omega) (by omega)) c (by simpa [h10] using h)
    · rw [List.mem_singleton] at h
      subst h
      exact (digChar_spec (n % 10) (Nat.mod_lt _ (by omega))).2

theorem digsToNat_natChars (n : Nat) : digsToNat (natChars n) = n := by
  induction n using Nat.strongRecOn with
  | _ n ih =>
    rw [natChars_unfold]
    unfold digsToNat
    rw [List.foldl_append]
    by_cases h : n < 10
    · simp only [if_pos h, List.foldl_nil, List.foldl_cons]
      rw [(digChar_spec (n % 10) (Nat.mod_lt _ (by omega))).1]
      omega
    · simp only [if_neg h, List.foldl_cons, List.foldl_nil]
      have := ih (n / 10) (Nat.div_lt_self (by omega) (by omega))
      unfold digsToNat at this
      rw [this, (digChar_spec (n % 10) (Nat.mod_lt _ (by omega))).1]
      omega

theorem natChars_cons (n : Nat) :
    ∃ c t, natChars n = c :: t ∧ isDig c = true := by
  cases h : natChars n with
  | nil => exact absurd h (natChars_ne_nil n)
  | cons c t => exact ⟨c, t, rfl, natChars_digits n c (h ▸ List.mem_cons_self ..)⟩

theorem takeDigs_no_dig {cs : List Char} (h : numStop cs = true) :
    takeDigs cs = ([], cs) := by
  cases cs with
  | nil => rfl
  | cons c t =>
    simp only [numStop, Bool.not_eq_true', Bool.or_eq_false_iff] at h
    rw [takeDigs, if_neg (by simp [h.1.1.1])]

theorem takeDigs_run {ds : List Char} (hds : ∀ c ∈ ds, isDig c = true)
    {rest : List Char} (hrest : takeDigs rest = ([], rest)) :
    takeDigs (ds ++ rest) = (ds, rest) := by
  induction ds with
  | nil => simpa using hrest
  | cons c t ih =>
    have hc := hds c (List.mem_cons_self ..)
    rw [List.cons_append, takeDigs, if_pos (by simp [hc])]
    rw [ih (fun x hx => hds x (List.mem_cons_of_mem _ hx))]

theorem isDig_facts {c : Char} (h : isDig c = true) :
    c ≠ '-' ∧ c ≠ '.' ∧ c ≠ 'e' ∧ c ≠ 'E' := by
  refine ⟨?_, ?_, ?_, ?_⟩ <;>
    (intro heq; subst heq; exact absurd h (by decide))

theorem numStop_facts {c : Char} {t : List Char} (h : numStop (c :: t) = true) :
    isDig c = false ∧ c ≠ '.' ∧ c ≠ 'e' ∧ c ≠ 'E' := by
  simp only [numStop, Bool.not_eq_true', Bool.or_eq_false_iff,
    decide_eq_false_iff_not] at h
  exact ⟨h.1.1.1, h.1.1.2, h.1.2, h.2⟩

theorem numExt_of_numStop {rest : List Char} (h : numStop rest = true) :
    numExt rest = false := by
  cases rest with
  | nil => rfl
  | cons c t =>
    obtain ⟨-, h1, h2, h3⟩ := numStop_facts h
    simp [numExt, h1, h2, h3]

theorem hexNib_hexDigit (k : Nat) (h : k < 16) :
    hexNib (hexDigitChar k) = some k := by
  interval_cases k <;> decide

theorem jStrBody_lit (acc : List Char) (c : Char) (t : List Char)
    (hq : c ≠ Char.ofNat 34) (hb : c ≠ Char.ofNat 92) :
    jStrBody acc (c :: t) = jStrBody (c :: acc) t := by
  conv_lhs => unfold jStrBody
  rw [if_neg hq, if_neg hb]

theorem jStrBody_close (acc : List Char) (t : List Char) :
    jStrBody acc (Char.ofNat 34 :: t) = some (String.mk acc.reverse, t) := by
  unfold jStrBody
  rw [if_pos rfl]

theorem jStrBody_unesc (acc : List Char) (e : Char) (t : List Char)
    (hu : e ≠ 'u') {ch : Char} (h : jUnesc e = some ch) :
    jStrBody acc (Char.ofNat 92 :: e :: t) = jStrBody (ch :: acc) t := by
  conv_lhs => unfold jStrBody
  rw [if_neg (by decide : ¬(Char.ofNat 92 = Char.ofNat 34)), if_pos rfl]
  simp only []
  rw [if_neg hu, h]

theorem jStrBody_hex (acc : List Char) (a b c2 d : Char) (t : List Char)
    (na nb nc nd : Nat) (ha : hexNib a = some na) (hb : hexNib b = some nb)
    (hc : hexNib c2 = some nc) (hd : hexNib d = some nd) :
    jStrBody acc (Char.ofNat 92 :: 'u' :: a :: b :: c2 :: d :: t)
      = jStrBody (Char.ofNat (((na * 16 + nb) * 16 + nc) * 16 + nd) :: acc) t := by
  conv_lhs => unfold jStrBody
  rw [if_neg (by decide : ¬(Char.ofNat 92 = Char.ofNat 34)), if_pos rfl]
  simp only []
  rw [if_pos trivial, ha, hb, hc, hd]

theorem jStrBody_esc (c : Char) (acc t : List Char) :
    jStrBody acc (jEscape c ++ t) = jStrBody (c :: acc) t := by
  rw [jEscape]
  by_cases h1 : c = Char.ofNat 34
  · rw [if_pos h1, h1]
    exact jStrBody_unesc _ _ _ (by decide) rfl
  rw [if_neg h1]
  by_cases h2 : c = Char.ofNat 92
  · rw [if_pos h2, h2]
    exact jStrBody_unesc _ _ _ (by decide) rfl
  rw [if_neg h2]
  by_cases h3 : c = Char.ofNat 8
  · rw [if_pos h3, h3]
    exact jStrBody_unesc _ _ _ (by decide) rfl
  rw [if_neg h3]
  by_cases h4 : c = Char.ofNat 9
  · rw [if_pos h4, h4]
    exact jStrBody_unesc _ _ _ (by decide) rfl
  rw [if_neg h4]
  by_cases h5 : c = Char.ofNat 10
  · rw [if_pos h5, h5]
    exact jStrBody_unesc _ _ _ (by decide) rfl
  rw [if_neg h5]
  by_cases h6 : c = Char.ofNat 12
  · rw [if_pos h6, h6]
    exact jStrBody_unesc _ _ _ (by decide) rfl
  rw [if_neg h6]
  by_cases h7 : c = Char.ofNat 13
  · rw [if_pos h7, h7]
    exact jStrBody_unesc _ _ _ (by decide) rfl
  rw [if_neg h7]
  by_cases h8 : c.toNat < 32
  · rw [if_pos h8]
    have e16 : c.toNat / 16 < 16 := by omega
    have r16 : c.toNat % 16 < 16 := by omega
    rw [List.cons_append, List.cons_append, List.cons_append, List.cons_append,
      List.cons_append, List.cons_append, List.nil_append,
      jStrBody_hex _ _ _ _ _ _ 0 0 (c.toNat / 16) (c.toNat % 16) (by decide) (by decide)
        (hexNib_hexDigit _ e16) (hexNib_hexDigit _ r16)]
    have harith : ((0 * 16 + 0) * 16 + c.toNat / 16) * 16 + c.toNat % 16 = c.toNat := by omega
    rw [harith, Char.ofNat_toNat]
  · rw [if_neg h8, List.cons_append, List.nil_append, jStrBody_lit _ _ _ h1 h2]

theorem jStrBody_flat (cs : List Char) : ∀ acc t : List Char,
    jStrBody acc (cs.flatMap jEscape ++ Char.ofNat 34 :: t)
      = some (String.mk (acc.reverse ++ cs), t) := by
  induction cs with
  | nil =>
    intro acc t
    rw [List.flatMap_nil, List.nil_append, jStrBody_close]
    simp
  | cons c cs ih =>
    intro acc t
    rw [List.flatMap_cons, List.append_assoc, jStrBody_esc, ih]
    simp

theorem jStr_render (s : String) (t : List Char) :
    jStrBody [] (s.toList.flatMap jEscape ++ Char.ofNat 34 :: t) = some (s, t) := by
  rw [jStrBody_flat]
  cases s
  rfl

theorem jNum_render (i : Int) (rest : List Char) (hr : numStop rest = true) :
    jNum (intChars i ++ rest) = some (i, rest) := by
  have hrun : takeDigs (natChars i.natAbs ++ rest) = (natChars i.natAbs, rest) :=
    takeDigs_run (natChars_digits _) (takeDigs_no_dig hr)
  obtain ⟨c0, t0, h0, hc0⟩ := natChars_cons i.natAbs
  have hdv : digsToNat (c0 :: t0) = i.natAbs := by rw [← h0, digsToNat_natChars]
  by_cases hi : i < 0
  · rw [intChars, if_pos hi, List.cons_append, jNum, if_pos rfl, hrun, h0]
    simp [numExt_of_numStop hr, hdv, abs_of_neg hi]
  · have hne : c0 ≠ '-' := (isDig_facts hc0).1
    rw [intChars, if_neg hi, h0, List.cons_append, jNum, if_neg hne, ← List.cons_append, ← h0,
      hrun, h0]
    simp [numExt_of_numStop hr, hdv, abs_of_nonneg (by omega : (0 : Int) ≤ i)]



theorem numHead_facts {c : Char} (h : c = '-' ∨ isDig c = true) :
    c ≠ Char.ofNat 34 ∧ c ≠ '[' ∧ c ≠ Char.ofNat 123 ∧ c ≠ 'n' ∧ c ≠ 't' ∧ c ≠ 'f'
      ∧ (decide (c = '-') || isDig c) = true := by
  rcases h with h | h
  · subst h
    exact ⟨by decide, by decide, by decide, by decide, by decide, by decide, by decide⟩
  · refine ⟨?_, ?_, ?_, ?_, ?_, ?_, by simp [h]⟩ <;>
      (intro heq; subst heq; exact absurd h (by decide))

theorem jParse_at_num (f : Nat) (c : Char) (t : List Char)
    (h : c = '-' ∨ isDig c = true) :
    jParse (f + 1) (c :: t) = (jNum (c :: t)).map fun p => (JVal.jnum p.1, p.2) := by
  obtain ⟨h1, h2, h3, h4, h5, h6, h7⟩ := numHead_facts h
  conv_lhs => unfold jParse
  rw [if_neg h1, if_neg h2, if_neg h3, if_neg h4, if_neg h5, if_neg h6, if_pos h7]

theorem jChars_head (v : JVal) :
    ∃ c t, jChars v = c :: t ∧ c ≠ ']' ∧ c ≠ Char.ofNat 125 := by
  cases v with
  | jstr s => exact ⟨_, _, rfl, by decide, by decide⟩
  | jbool b => cases b with
    | true => exact ⟨_, _, rfl, by decide, by decide⟩
    | false => exact ⟨_, _, rfl, by decide, by decide⟩
  | jnull => exact ⟨_, _, rfl, by decide, by decide⟩
  | jarr es => exact ⟨_, _, rfl, by decide, by decide⟩
  | jobj fs => exact ⟨_, _, rfl, by decide, by decide⟩
  | jnum i =>
    obtain ⟨c0, t0, h0, hc0⟩ := natChars_cons i.natAbs
    by_cases hi : i < 0
    · exact ⟨'-', _, by rw [jChars, intChars, if_pos hi], by decide, by decide⟩
    · refine ⟨c0, t0, by rw [jChars, intChars, if_neg hi, h0], ?_, ?_⟩ <;>
        (intro heq; subst heq; exact absurd hc0 (by decide))

theorem jParse_render (fuel : Nat) :
    (∀ (v : JVal) (rest : List Char), (jChars v).length < fuel → numStop rest = true →
      jParse fuel (jChars v ++ rest) = some (v, rest))
  ∧ (∀ (e : JVal) (es : List JVal) (rest : List Char),
      (jArrChars (e :: es)).length + 1 < fuel →
      jItems fuel (jArrChars (e :: es) ++ ']' :: rest) = some (e :: es, rest))
  ∧ (∀ (k : String) (v : JVal) (fs : List (String × JVal)) (rest : List Char),
      (jObjChars ((k, v) :: fs)).length + 1 < fuel →
      jPairs fuel (jObjChars ((k, v) :: fs) ++ Char.ofNat 125 :: rest)
        = some ((k, v) :: fs, rest)) := by
  induction fuel using Nat.strongRecOn with
  | _ fuel ih =>
  rcases fuel with _ | f
  · exact ⟨fun v rest h => by omega, fun e es rest h => by omega,
      fun k v fs rest h => by omega⟩
  have ihv := fun (g : Nat) (hg : g < f + 1) => (ih g hg).1
  have ihi := fun (g : Nat) (hg : g < f + 1) => (ih g hg).2.1
  have ihp := fun (g : Nat) (hg : g < f + 1) => (ih g hg).2.2
  refine ⟨?_, ?_, ?_⟩
  · -- a single value
    intro v rest hlen hstop
    cases v with
    | jstr s =>
      rw [jChars, jStrChars, List.cons_append, List.append_assoc, List.cons_append,
        List.nil_append]
      conv_lhs => unfold jParse
      rw [if_pos rfl, jStr_render]
      rfl
    | jnum i =>
      rw [jChars] at hlen ⊢
      have hdisj : ∃ c0 t0, intChars i = c0 :: t0 ∧ (c0 = '-' ∨ isDig c0 = true) := by
        rcases natChars_cons i.natAbs with ⟨c1, t1, h1, hc1⟩
        by_cases hi : i < 0
        · exact ⟨'-', _, by rw [intChars, if_pos hi], Or.inl rfl⟩
        · exact ⟨c1, t1, by rw [intChars, if_neg hi, h1], Or.inr hc1⟩
      obtain ⟨c0, t0, h0, hor⟩ := hdisj
      rw [h0, List.cons_append, jParse_at_num f c0 _ hor, ← List.cons_append, ← h0,
        jNum_render i rest hstop]
      rfl
    | jbool b =>
      cases b with
      | true =>
        rw [jChars]
        simp only [List.cons_append, List.nil_append]
        conv_lhs => unfold jParse
        rw [if_neg (by decide), if_neg (by decide), if_neg (by decide), if_neg (by decide),
          if_pos rfl]
        rfl
      | false =>
        rw [jChars]
        simp only [List.cons_append, List.nil_append]
        conv_lhs => unfold jParse
        rw [if_neg (by decide), if_neg (by decide), if_neg (by decide), if_neg (by decide),
          if_neg (by decide), if_pos rfl]
        rfl
    | jnull =>
      rw [jChars]
      simp only [List.cons_append, List.nil_append]
      conv_lhs => unfold jParse
      rw [if_neg (by decide), if_neg (by decide), if_neg (by decide), if_pos rfl]
      rfl
    | jarr es =>
      cases es with
      | nil =>
        rw [jChars, jArrChars]
        simp only [List.nil_append, List.cons_append]
        conv_lhs => unfold jParse
        rw [if_neg (by decide), if_pos rfl]
        simp only []
        rw [if_pos trivial]
      | cons e es =>
        rw [jChars] at hlen ⊢
        obtain ⟨c0, t0, h0, hne, -⟩ := jChars_head e
        have hshape : (jArrChars (e :: es) ++ [']']) ++ rest
            = c0 :: (t0 ++ (jArrTail es ++ ']' :: rest)) := by
          rw [jArrChars, h0]
          simp
        rw [List.cons_append, hshape]
        conv_lhs => unfold jParse
        rw [if_neg (by decide), if_pos rfl]
        simp only []
        rw [if_neg hne]
        have hback : c0 :: (t0 ++ (jArrTail es ++ ']' :: rest))
            = jArrChars (e :: es) ++ ']' :: rest := by
          rw [jArrChars, h0]
          simp
        rw [hback, ihi f (by omega) e es rest (by
          simp only [List.length_cons, List.length_append] at hlen ⊢
          omega)]
        rfl
    | jobj fs =>
      cases fs with
      | nil =>
        rw [jChars, jObjChars]
        simp only [List.nil_append, List.cons_append]
        conv_lhs => unfold jParse
        rw [if_neg (by decide), if_neg (by decide), if_pos rfl]
        simp only []
        rw [if_pos trivial]
      | cons kv fs =>
        obtain ⟨k, v⟩ := kv
        rw [jChars] at hlen ⊢
        have hshape : (jObjChars ((k, v) :: fs) ++ [Char.ofNat 125]) ++ rest
            = Char.ofNat 34 :: ((k.toList.flatMap jEscape ++ [Char.ofNat 34])
                ++ (':' :: (jChars v ++ jObjTail fs) ++ Char.ofNat 125 :: rest)) := by
          rw [jObjChars, jStrChars]
          simp
        rw [List.cons_append, hshape]
        conv_lhs => unfold jParse
        rw [if_neg (by decide), if_neg (by decide), if_pos rfl]
        simp only []
        rw [if_neg (by decide)]
        have hback : Char.ofNat 34 :: ((k.toList.flatMap jEscape ++ [Char.ofNat 34])
                ++ (':' :: (jChars v ++ jObjTail fs) ++ Char.ofNat 125 :: rest))
            = jObjChars ((k, v) :: fs) ++ Char.ofNat 125 :: rest := by
          rw [jObjChars, jStrChars]
          simp
        rw [hback, ihp f (by omega) k v fs rest (by
          simp only [List.length_cons, List.length_append] at hlen ⊢
          omega)]
        rfl
  · -- one-or-more array elements
    intro e es rest hlen
    rw [jArrChars, List.append_assoc]
    conv_lhs => unfold jItems
    have hstope : numStop (jArrTail es ++ ']' :: rest) = true := by
      cases es <;> rfl
    have hlene : (jChars e).length < f := by
      rw [jArrChars] at hlen
      simp only [List.length_append] at hlen
      omega
    rw [ihv f (by omega) e _ hlene hstope]
    simp only []
    cases es with
    | nil =>
      simp only [jArrTail, List.nil_append]
      rw [if_neg (by decide), if_pos trivial]
    | cons x xs =>
      simp only [jArrTail, List.cons_append]
      rw [if_pos trivial]
      have hrec := ihi f (by omega) x xs rest (by
        rw [jArrChars] at hlen ⊢
        simp only [jArrTail, List.length_append, List.length_cons] at hlen ⊢
        omega)
      rw [jArrChars] at hrec
      simp only [List.append_assoc] at hrec ⊢
      rw [hrec]
      rfl
  · -- one-or-more object members
    intro k v fs rest hlen
    have hshape : jObjChars ((k, v) :: fs) ++ Char.ofNat 125 :: rest
        = Char.ofNat 34 :: (k.toList.flatMap jEscape
            ++ Char.ofNat 34 :: (':' :: (jChars v ++ (jObjTail fs ++ Char.ofNat 125 :: rest)))) := by
      rw [jObjChars, jStrChars]
      simp
    rw [hshape]
    conv_lhs => unfold jPairs
    simp only []
    rw [if_pos trivial, jStr_render]
    simp only []
    rw [if_pos trivial]
    have hstopv : numStop (jObjTail fs ++ Char.ofNat 125 :: rest) = true := by
      cases fs <;> rfl
    have hlenv : (jChars v).length < f := by
      rw [jObjChars, jStrChars] at hlen
      simp only [List.length_append, List.length_cons] at hlen
      omega
    rw [ihv f (by omega) v _ hlenv hstopv]
    simp only []
    cases fs with
    | nil =>
      simp only [jObjTail, List.nil_append]
      rw [if_neg (by decide), if_pos trivial]
    | cons kv2 fs2 =>
      obtain ⟨k2, v2⟩ := kv2
      simp only [jObjTail, List.cons_append]
      rw [if_pos trivial]
      have hrec := ihp f (by omega) k2 v2 fs2 rest (by
        rw [jObjChars] at hlen ⊢
        simp only [jObjTail, jStrChars, List.length_append, List.length_cons] at hlen ⊢
        omega)
      rw [jObjChars] at hrec
      simp only [List.append_assoc] at hrec ⊢
      rw [hrec]
      rfl

theorem jsonParse_stringify (v : JVal) : jsonParse (jsonStringify v) = some v := by
  have h := (jParse_render ((jChars v).length + 1)).1 v [] (by omega) rfl
  rw [List.append_nil] at h
  rw [jsonParse, jsonStringify]
  have htl : (String.mk (jChars v)).toList = jChars v := rfl
  rw [htl, h]

/-! ## Round-trip of the base64 codec -/

theorem b64Idx_b64Char : ∀ n < 64, b64Idx (b64Char n) = some n := by decide

theorem b64Char_ne_pad : ∀ n < 64, b64Char n ≠ '=' := by decide

theorem b64DecodeBytes_encode : ∀ bs : List Nat, (∀ b ∈ bs, b < 256) →
    b64DecodeBytes (b64EncodeBytes bs) = some bs
  | [], _ => rfl
  | [a], h => by
      have ha : a < 256 := h a (by simp)
      rw [b64EncodeBytes, b64DecodeBytes,
        b64Idx_b64Char _ (by omega : a / 4 < 64),
        b64Idx_b64Char _ (by omega : a % 4 * 16 < 64)]
      simp only []
      rw [if_pos trivial, if_pos (by simp)]
      have hval : a / 4 * 4 + a % 4 * 16 / 16 = a := by omega
      rw [hval]
  | [a, b], h => by
      have ha : a < 256 := h a (by simp)
      have hb : b < 256 := h b (by simp)
      rw [b64EncodeBytes, b64DecodeBytes,
        b64Idx_b64Char _ (by omega : a / 4 < 64),
        b64Idx_b64Char _ (by omega : a % 4 * 16 + b / 16 < 64)]
      simp only []
      rw [if_neg (b64Char_ne_pad _ (by omega : b % 16 * 4 < 64)),
        b64Idx_b64Char _ (by omega : b % 16 * 4 < 64)]
      simp only []
      rw [if_pos trivial, if_pos trivial]
      have h1 : a / 4 * 4 + (a % 4 * 16 + b / 16) / 16 = a := by omega
      have h2 : (a % 4 * 16 + b / 16) % 16 * 16 + b % 16 * 4 / 4 = b := by omega
      rw [h1, h2]
  | a :: b :: c :: rest, h => by
      have ha : a < 256 := h a (by simp)
      have hb : b < 256 := h b (by simp)
      have hc : c < 256 := h c (by simp)
      have hrest := b64DecodeBytes_encode rest fun x hx => h x (by simp [hx])
      rw [b64EncodeBytes, b64DecodeBytes,
        b64Idx_b64Char _ (by omega : a / 4 < 64),
        b64Idx_b64Char _ (by omega : a % 4 * 16 + b / 16 < 64)]
      simp only []
      rw [if_neg (b64Char_ne_pad _ (by omega : b % 16 * 4 + c / 64 < 64)),
        b64Idx_b64Char _ (by omega : b % 16 * 4 + c / 64 < 64)]
      simp only []
      rw [if_neg (b64Char_ne_pad _ (by omega : c % 64 < 64)),
        b64Idx_b64Char _ (by omega : c % 64 < 64)]
      simp only []
      rw [hrest]
      have h1 : a / 4 * 4 + (a % 4 * 16 + b / 16) / 16 = a := by omega
      have h2 : (a % 4 * 16 + b / 16) % 16 * 16 + (b % 16 * 4 + c / 64) / 4 = b := by omega
      have h3 : (b % 16 * 4 + c / 64) % 4 * 64 + c % 64 = c := by omega
      simp [h1, h2, h3]

theorem atob_btoa (s : String) (h : strLatin1 s = true) :
    (btoa s).bind atob = some s := by
  rw [btoa, if_pos h]
  show atob (String.mk (b64EncodeBytes (s.toList.map Char.toNat))) = some s
  rw [atob]
  have hbytes : ∀ b ∈ s.toList.map Char.toNat, b < 256 := by
    intro b hb
    rw [List.mem_map] at hb
    obtain ⟨c, hc, rfl⟩ := hb
    rw [strLatin1, List.all_eq_true] at h
    simpa using h c hc
  have htl : (String.mk (b64EncodeBytes (s.toList.map Char.toNat))).toList
      = b64EncodeBytes (s.toList.map Char.toNat) := rfl
  rw [htl, b64DecodeBytes_encode _ hbytes]
  have hmap : (s.toList.map Char.toNat).map (fun b => Char.ofNat b) = s.toList := by
    rw [List.map_map]
    have hco : (fun b => Char.ofNat b) ∘ Char.toNat = id := by
      funext c
      exact Char.ofNat_toNat c
    rw [hco, List.map_id]
  show some (String.mk ((s.toList.map Char.toNat).map fun b => Char.ofNat b)) = some s
  rw [hmap]
  cases s
  rfl

/-! ## The redirect bridge round-trip (storage lemmas first) -/

theorem lsGet_set_self (st : List (String × String)) (k v : String) :
    lsGetItem (lsSetItem st k v) k = some v := by
  induction st with
  | nil => simp [lsSetItem, lsGetItem]
  | cons p rest ih =>
    obtain ⟨k1, v1⟩ := p
    by_cases h : k1 == k
    · rw [lsSetItem, if_pos h, lsGetItem, if_pos h]
    · rw [lsSetItem, if_neg (by simp_all), lsGetItem, if_neg (by simp_all)]
      exact ih

theorem lsGet_set_other (st : List (String × String)) (k k' v : String) (h : k ≠ k') :
    lsGetItem (lsSetItem st k v) k' = lsGetItem st k' := by
  induction st with
  | nil => simp [lsSetItem, lsGetItem, h]
  | cons p rest ih =>
    obtain ⟨k1, v1⟩ := p
    by_cases h1 : k1 == k
    · have h2 : (k1 == k') = false := by
        simp only [beq_iff_eq] at h1 ⊢
        subst h1
        simpa using h
      rw [lsSetItem, if_pos h1, lsGetItem, if_neg (by simp [h2]), lsGetItem,
        if_neg (by simp [h2])]
    · rw [lsSetItem, if_neg (by simp_all), lsGetItem, lsGetItem]
      by_cases h2 : k1 == k'
      · rw [if_pos h2, if_pos h2]
      · rw [if_neg (by simp_all), if_neg (by simp_all)]
        exact ih

theorem lsGet_remove_self (st : List (String × String)) (k : String) :
    lsGetItem (lsRemoveItem st k) k = none := by
  induction st with
  | nil => rfl
  | cons p rest ih =>
    obtain ⟨k1, v1⟩ := p
    by_cases h : k1 == k
    · rw [lsRemoveItem, List.filter_cons]
      simp only [h, Bool.not_true, Bool.false_eq_true, if_false]
      exact ih
    · rw [lsRemoveItem, List.filter_cons]
      simp only [h, Bool.not_false, if_true]
      rw [lsGetItem, if_neg (by simp_all)]
      exact ih

theorem lsGet_remove_other (st : List (String × String)) (k k' : String) (h : k ≠ k') :
    lsGetItem (lsRemoveItem st k) k' = lsGetItem st k' := by
  induction st with
  | nil => rfl
  | cons p rest ih =>
    obtain ⟨k1, v1⟩ := p
    by_cases h1 : k1 == k
    · have h2 : (k1 == k') = false := by
        simp only [beq_iff_eq] at h1 ⊢
        subst h1
        simpa using h
      rw [lsRemoveItem, List.filter_cons]
      simp only [h1, Bool.not_true, Bool.false_eq_true, if_false]
      rw [lsGetItem, if_neg (by simp [h2])]
      exact ih
    · rw [lsRemoveItem, List.filter_cons]
      simp only [h1, Bool.not_false, if_true]
      rw [lsGetItem, lsGetItem]
      by_cases h2 : k1 == k'
      · rw [if_pos h2, if_pos h2]
      · rw [if_neg (by simp_all), if_neg (by simp_all)]
        exact ih

theorem atob_of_btoa {s e : String} (hb : btoa s = some e) (h : strLatin1 s = true) :
    atob e = some s := by
  have := atob_btoa s h
  rw [hb] at this
  simpa using this

/-- **C4**: For every Ledger and Result Accumulator, the Redirect Bridge
writes them to local storage as base64-encoded JSON under the fixed keys
`"fetch data before redirect: "` and `"values to return: "`; reading them
back after the redirect reproduces an identical Ledger and Result
Accumulator (decode-of-encode round-trip), and after a successful read both
persisted entries are removed from storage.  The Latin-1 hypotheses are
exactly `btoa`'s own domain condition (outside it the browser call throws,
so nothing is persisted). -/
theorem redirect_bridge_roundtrip (st : List (String × String))
    (prev : List (String × JVal)) (name : String) (cur : JVal)
    (toRet : List (String × JVal))
    (h1 : strLatin1 (jsonStringify (JVal.jobj (assignKey prev name cur))) = true)
    (h2 : strLatin1 (jsonStringify (JVal.jobj toRet)) = true) :
    ∃ st',
      redirectOnCustomProviderButtonClick st prev name cur toRet false none
        = .ok st'
      ∧ lsGetItem st' storeFetchesAs
          = btoa (jsonStringify (JVal.jobj (assignKey prev name cur)))
      ∧ lsGetItem st' storeToReturnAs = btoa (jsonStringify (JVal.jobj toRet))
      ∧ handleAfterRedirectRecover st'
          = .ok (JVal.jobj (assignKey prev name cur), JVal.jobj toRet,
              lsRemoveItem (lsRemoveItem st' storeFetchesAs) storeToReturnAs)
      ∧ lsGetItem (lsRemoveItem (lsRemoveItem st' storeFetchesAs) storeToReturnAs)
          storeFetchesAs = none
      ∧ lsGetItem (lsRemoveItem (lsRemoveItem st' storeFetchesAs) storeToReturnAs)
          storeToReturnAs = none := by
  obtain ⟨e1, hb1⟩ : ∃ e, btoa (jsonStringify (JVal.jobj (assignKey prev name cur))) = some e :=
    ⟨_, by rw [btoa, if_pos h1]⟩
  obtain ⟨e2, hb2⟩ : ∃ e, btoa (jsonStringify (JVal.jobj toRet)) = some e :=
    ⟨_, by rw [btoa, if_pos h2]⟩
  have hkeys : storeFetchesAs ≠ storeToReturnAs := by decide
  refine ⟨lsSetItem (lsSetItem st storeFetchesAs e1) storeToReturnAs e2, ?_, ?_, ?_, ?_, ?_, ?_⟩
  · rw [redirectOnCustomProviderButtonClick, hb1, hb2]
    rfl
  · rw [lsGet_set_other _ _ _ _ (Ne.symm hkeys), lsGet_set_self, hb1]
  · rw [lsGet_set_self, hb2]
  · rw [handleAfterRedirectRecover]
    rw [lsGet_set_other _ _ _ _ (Ne.symm hkeys), lsGet_set_self, lsGet_set_self]
    simp only []
    rw [atob_of_btoa hb1 h1, atob_of_btoa hb2 h2]
    simp only [Option.some_bind]
    rw [jsonParse_stringify, jsonParse_stringify]
  · rw [lsGet_remove_other _ _ _ (Ne.symm hkeys), lsGet_remove_self]
  · rw [lsGet_remove_self]

/-- Witness for `redirect_bridge_roundtrip` at a concrete Ledger, step and
accumulator. -/
theorem redirect_bridge_roundtrip_witness :
    ∃ st',
      redirectOnCustomProviderButtonClick [] demoLedger "step2" demoRecord demoToReturn
          false none
        = .ok st'
      ∧ lsGetItem st' storeFetchesAs
          = btoa (jsonStringify (JVal.jobj (assignKey demoLedger "step2" demoRecord)))
      ∧ lsGetItem st' storeToReturnAs = btoa (jsonStringify (JVal.jobj demoToReturn))
      ∧ handleAfterRedirectRecover st'
          = .ok (JVal.jobj (assignKey demoLedger "step2" demoRecord), JVal.jobj demoToReturn,
              lsRemoveItem (lsRemoveItem st' storeFetchesAs) storeToReturnAs)
      ∧ lsGetItem (lsRemoveItem (lsRemoveItem st' storeFetchesAs) storeToReturnAs)
          storeFetchesAs = none
      ∧ lsGetItem (lsRemoveItem (lsRemoveItem st' storeFetchesAs) storeToReturnAs)
          storeToReturnAs = none :=
  redirect_bridge_roundtrip [] demoLedger "step2" demoRecord demoToReturn
    (by decide) (by decide)

/-! ## The Value Resolver claims -/

/-- **C1** (code bug): the spec says a reference `["step1","response","token"]`
against a Ledger `{step1: {…, response: {token: "T"}}}` binds the key to
`"T"`, walking only the segments after the first two.  The code's walk loop
iterates over every segment starting inside the selected half, so this
resolution instead reaches `undefined`, raises a `TypeError` on the next
segment, and reports "Parameter … not found" through the error handler.
And when the Ledger has no entry `step1`, the initial
`previousFetchData[value[0]][value[1]]` read throws a raw `TypeError`
without invoking the configured handler, contradicting the spec's
error-routing sentence as well. -/
theorem getAllParams_reference_walk_bug :
    getAllParams false [] [("key", ParamVal.ref ["step1", "response", "token"])]
        demoLedger (JVal.jobj []) none
      = .error (.thrown "Parameter response not found in previous fetches")
  ∧ getAllParams false [] [("key", ParamVal.ref ["step1", "response", "token"])]
        [] (JVal.jobj []) none
      = .error (.typeError "cannot read properties of undefined (reading response)") :=
  ⟨rfl, rfl⟩

theorem mem_assignKey_keys (x : String) :
    ∀ (acc : List (String × JVal)) (k : String) (v : JVal),
    (x ∈ (assignKey acc k v).map Prod.fst ↔ x ∈ acc.map Prod.fst ∨ x = k)
  | [], k, v => by simp [assignKey]
  | (k1, v1) :: t, k, v => by
      by_cases h : k1 == k
      · rw [assignKey, if_pos h]
        simp only [beq_iff_eq] at h
        subst h
        simp
        tauto
      · rw [assignKey, if_neg (by simp_all)]
        simp only [List.map_cons, List.mem_cons, mem_assignKey_keys x t k v]
        tauto

theorem assignKey_nodup {acc : List (String × JVal)}
    (h : (acc.map Prod.fst).Nodup) (k : String) (v : JVal) :
    ((assignKey acc k v).map Prod.fst).Nodup := by
  induction acc with
  | nil => simp [assignKey]
  | cons p t ih =>
    obtain ⟨k1, v1⟩ := p
    simp only [List.map_cons, List.nodup_cons] at h
    by_cases hk : k1 == k
    · rw [assignKey, if_pos hk]
      simp only [List.map_cons, List.nodup_cons]
      exact h
    · rw [assignKey, if_neg (by simp_all)]
      simp only [List.map_cons, List.nodup_cons, mem_assignKey_keys]
      refine ⟨?_, ih h.2⟩
      rintro (hmem | rfl)
      · exact h.1 hmem
      · simp_all

theorem getAllParamsLoop_nodup (isServer : Bool) (gp pfd : List (String × JVal))
    (cfd : JVal) (sp : Option JVal) :
    ∀ (params : List (String × ParamVal)) (acc out : List (String × JVal)),
    getAllParamsLoop isServer gp pfd cfd sp params acc = .ok out →
    (acc.map Prod.fst).Nodup → (out.map Prod.fst).Nodup
  | [], acc, out, h, hn => by
      rw [getAllParamsLoop] at h
      cases h
      exact hn
  | (key, value) :: rest, acc, out, h, hn => by
      cases value with
      | lit s =>
          rw [getAllParamsLoop] at h
          exact getAllParamsLoop_nodup isServer gp pfd cfd sp rest _ out h
            (assignKey_nodup hn key _)
      | ref path =>
          rw [getAllParamsLoop] at h
          repeat' split at h
          all_goals first
            | (cases h)
            | exact getAllParamsLoop_nodup isServer gp pfd cfd sp rest _ out h
                (assignKey_nodup hn key _)
      | fn f =>
          rw [getAllParamsLoop] at h
          repeat' split at h
          all_goals first
            | (cases h)
            | exact getAllParamsLoop_nodup isServer gp pfd cfd sp rest _ out h
                (assignKey_nodup hn key _)
      | gen names g =>
          rw [getAllParamsLoop] at h
          repeat' split at h
          all_goals first
            | (cases h)
            | exact getAllParamsLoop_nodup isServer gp pfd cfd sp rest _ out h
                (assignKey_nodup hn key _)

theorem assignKey_fresh {acc : List (String × JVal)} {k : String} (v : JVal)
    (h : ∀ q ∈ acc, q.1 ≠ k) : assignKey acc k v = acc ++ [(k, v)] := by
  induction acc with
  | nil => rfl
  | cons p t ih =>
    obtain ⟨k1, v1⟩ := p
    have hk : ¬(k1 == k) := by
      have := h (k1, v1) (List.mem_cons_self ..)
      simp_all
    rw [assignKey, if_neg hk, List.cons_append,
      ih fun q hq => h q (List.mem_cons_of_mem _ hq)]

theorem removeNested_go :
    ∀ (l acc : List (String × JVal)), (l.map Prod.fst).Nodup →
    (∀ p ∈ l, ∀ q ∈ acc, q.1 ≠ p.1) →
    l.foldl (fun acc p => if jsTypeof p.2 == "object" then acc else assignKey acc p.1 p.2) acc
      = acc ++ l.filter fun p => !(jsTypeof p.2 == "object")
  | [], acc, _, _ => by simp
  | p :: t, acc, hn, hd => by
      rw [List.foldl_cons, List.filter_cons]
      simp only [List.map_cons, List.nodup_cons] at hn
      by_cases hobj : jsTypeof p.2 == "object"
      · rw [if_pos hobj]
        simp only [hobj, Bool.not_true, Bool.false_eq_true, if_false]
        exact removeNested_go t acc hn.2 fun q hq r hr => hd q (List.mem_cons_of_mem _ hq) r hr
      · rw [if_neg hobj, assignKey_fresh _ fun q hq => hd p (List.mem_cons_self ..) q hq]
        simp only [hobj, Bool.not_false, if_true]
        rw [removeNested_go t (acc ++ [p]) hn.2 ?fresh]
        · rw [List.append_assoc]
          rfl
        case fresh =>
          intro q hq r hr
          rcases List.mem_append.mp hr with hr | hr
          · exact hd q (List.mem_cons_of_mem _ hq) r hr
          · rw [List.mem_singleton] at hr
            subst hr
            intro heq
            exact hn.1 (heq ▸ List.mem_map_of_mem Prod.fst hq)

/-- **C9**: the map `getAllParams` returns is exactly the resolved map with
every structured-object-valued key dropped (`removeNestedObjects` filters on
`typeof !== "object"`), so the map handed onward is flat. -/
theorem getAllParams_flat (isServer : Bool) (gp : List (String × JVal))
    (params : List (String × ParamVal)) (pfd : List (String × JVal)) (cfd : JVal)
    (sp : Option JVal) (raw : List (String × JVal))
    (h : getAllParamsLoop isServer gp pfd cfd sp params [] = .ok raw) :
    getAllParams isServer gp params pfd cfd sp
        = .ok (raw.filter fun p => !(jsTypeof p.2 == "object"))
      ∧ ∀ p ∈ raw.filter (fun p => !(jsTypeof p.2 == "object")), jsTypeof p.2 ≠ "object" := by
  have hn := getAllParamsLoop_nodup isServer gp pfd cfd sp params [] raw h (by simp)
  constructor
  · rw [getAllParams, h]
    show Except.ok (removeNestedObjects raw) = _
    rw [removeNestedObjects, removeNested_go raw [] hn (by simp)]
    rw [List.nil_append]
  · intro p hp
    rw [List.mem_filter] at hp
    have := hp.2
    simp_all

/-- Witness for `getAllParams_flat`: a literal plus a reference that resolves
(through the override parser) to a structured object; the object-valued key
is dropped from the final map. -/
theorem getAllParams_flat_witness :
    getAllParams false [] [("flat", ParamVal.lit "x"), ("nested", ParamVal.ref ["s"])] []
        (JVal.jobj []) (some (JVal.jobj [("s", JVal.jobj [("a", JVal.jstr "b")])]))
      = .ok [("flat", JVal.jstr "x")] :=
  (getAllParams_flat false [] [("flat", ParamVal.lit "x"), ("nested", ParamVal.ref ["s"])] []
    (JVal.jobj []) (some (JVal.jobj [("s", JVal.jobj [("a", JVal.jstr "b")])]))
    [("flat", JVal.jstr "x"), ("nested", JVal.jobj [("a", JVal.jstr "b")])] rfl).1

/-! ## The retry state machine -/

theorem exists_append_last {α : Type} (a : List α) (x y : α) :
    ∃ l, a ++ [x, y] = l ++ [y] :=
  ⟨a ++ [x], by simp⟩

theorem runValidators_events (pfd : List (String × JVal)) :
    ∀ vs : List (List (String × JVal) → Bool), ∀ ev ∈ (runValidators pfd vs).2,
    isHttpAttempt ev = false ∧ isSleep ev = false ∧ isOnRetry ev = false
  | [], ev, h => by simp [runValidators] at h
  | v :: rest, ev, h => by
      rw [runValidators] at h
      by_cases hv : v pfd
      · rw [if_pos hv] at h
        simp only [List.mem_cons] at h
        rcases h with rfl | h
        · exact ⟨rfl, rfl, rfl⟩
        · exact runValidators_events pfd rest ev h
      · rw [if_neg hv] at h
        simp only [List.mem_cons, List.not_mem_nil, or_false] at h
        rcases h with rfl | rfl <;> exact ⟨rfl, rfl, rfl⟩

theorem runAttempt_counts (env : RetryEnv) (n : Nat) (s : Int) :
    (runAttempt env n s).2.2.countP isHttpAttempt = 1
  ∧ (runAttempt env n s).2.2.countP isSleep = 0
  ∧ (runAttempt env n s).2.2.countP isOnRetry = 0 := by
  have hstart : ∀ p : REvent → Bool, p REvent.evRequestStart = false →
      (if env.hasOnRequestStart then [REvent.evRequestStart] else []).countP p = 0 := by
    intro p hp
    cases env.hasOnRequestStart <;> simp [List.countP_cons, hp]
  have hval : ∀ p : REvent → Bool,
      (∀ ev ∈ (runValidators env.previousFetchData env.validators).2,
        p ev = false) →
      (runValidators env.previousFetchData env.validators).2.countP p = 0 := by
    intro p hp
    exact List.countP_eq_zero.mpr (by simpa using hp)
  rw [runAttempt]
  rcases env.fetch n with e | ⟨status, ok, render, parsed⟩
  · refine ⟨?_, ?_, ?_⟩ <;>
      simp [List.countP_append, List.countP_cons, hstart, isHttpAttempt, isSleep, isOnRetry]
  · by_cases hok : ok
    · subst hok
      simp only [Bool.not_true, Bool.false_eq_true, if_false]
      rcases parsed with e | v
      · refine ⟨?_, ?_, ?_⟩ <;>
          simp [List.countP_append, List.countP_cons, hstart, isHttpAttempt, isSleep, isOnRetry]
      · rcases hvr : (runValidators env.previousFetchData env.validators).1 with e | u <;>
          · simp only [hvr]
            refine ⟨?_, ?_, ?_⟩ <;>
              · rw [List.countP_append, List.countP_cons]
                first
                  | (rw [hstart isHttpAttempt rfl,
                        hval isHttpAttempt
                          (fun ev hev => (runValidators_events env.previousFetchData _ ev hev).1)])
                  | (rw [hstart isSleep rfl,
                        hval isSleep
                          (fun ev hev => (runValidators_events env.previousFetchData _ ev hev).2.1)])
                  | (rw [hstart isOnRetry rfl,
                        hval isOnRetry
                          (fun ev hev => (runValidators_events env.previousFetchData _ ev hev).2.2)])
                rfl
    · have hok' : ok = false := by simpa using hok
      subst hok'
      refine ⟨?_, ?_, ?_⟩ <;>
        simp [List.countP_append, List.countP_cons, hstart, isHttpAttempt, isSleep, isOnRetry]

theorem waitAndRetryGo_all_fail (env : RetryEnv)
    (hretry : ∀ e s, env.retryOn e s = true)
    (hfail : ∀ n s, ∃ e, (runAttempt env n s).1 = .error e) :
    ∀ (fuel retries : Nat) (lrd ls : Int),
    (waitAndRetryGo env fuel retries lrd ls).1 = .ok maxRetriesPayload
  ∧ (waitAndRetryGo env fuel retries lrd ls).2.countP isHttpAttempt = fuel
  | 0, retries, lrd, ls => ⟨rfl, rfl⟩
  | fuel + 1, retries, lrd, ls => by
      obtain ⟨e, he⟩ := hfail retries ls
      have ih := waitAndRetryGo_all_fail env hretry hfail fuel (retries + 1)
        (env.backOffStrategy ((retries : Int) + 1)
          ⟨(retries : Int) + 1, e, 0, 0, lrd, env.maxRetries, env.previousFetchData⟩)
        (runAttempt env retries ls).2.1
      rw [waitAndRetryGo]
      simp only [he, hretry]
      constructor
      · simp only [if_true]
        exact ih.1
      · simp only [if_true, List.countP_append, ih.2, (runAttempt_counts env retries ls).1]
        cases env.hasOnRetry <;> simp [List.countP_cons, isHttpAttempt] <;> omega

/-- **C2**: with `maxRetries = 3` and a retry predicate that always answers
`true`, if every attempt fails then exactly 3 HTTP attempts are issued and the
executor returns the non-thrown terminal payload
`{error: "Max Retries Reached"}`. -/
theorem waitAndRetry_exhaustion (env : RetryEnv)
    (hmax : env.maxRetries = 3)
    (hretry : ∀ e s, env.retryOn e s = true)
    (hfail : ∀ n s, ∃ e, (runAttempt env n s).1 = .error e) :
    (waitAndRetryRequest env).1 = .ok maxRetriesPayload
  ∧ (waitAndRetryRequest env).2.countP isHttpAttempt = 3 := by
  rw [waitAndRetryRequest, hmax]
  exact waitAndRetryGo_all_fail env hretry hfail 3 0 0 0

/-- Witness for `waitAndRetry_exhaustion`: a permanent non-ok 500 response. -/
theorem waitAndRetry_exhaustion_witness :
    (waitAndRetryRequest demoExhaustEnv).1 = .ok maxRetriesPayload
  ∧ (waitAndRetryRequest demoExhaustEnv).2.countP isHttpAttempt = 3 :=
  waitAndRetry_exhaustion demoExhaustEnv rfl (fun _ _ => rfl)
    (fun _ _ => ⟨.thrown ("Response has some error:" ++ "R"), rfl⟩)

/-- **C7**: with a retry predicate that always answers `false`, a single
failing attempt is fatal: the error propagates (thrown) with the configured
handler invoked last, exactly one HTTP attempt happens, and no retry sleep is
awaited and `onRetry` is never invoked.  (The backoff function itself is still
evaluated before `retryOn` is consulted; only the delay is never awaited.) -/
theorem waitAndRetry_fatal (env : RetryEnv) (e : JsErr)
    (hmax : 0 < env.maxRetries)
    (hretry : ∀ e s, env.retryOn e s = false)
    (hfail : (runAttempt env 0 0).1 = .error e) :
    (waitAndRetryRequest env).1 = .error e
  ∧ (waitAndRetryRequest env).2.countP isHttpAttempt = 1
  ∧ (waitAndRetryRequest env).2.countP isSleep = 0
  ∧ (waitAndRetryRequest env).2.countP isOnRetry = 0
  ∧ ∃ l, (waitAndRetryRequest env).2 = l ++ [REvent.evHandler (jsErrMsg e)] := by
  obtain ⟨k, hk⟩ : ∃ k, env.maxRetries.toNat = k + 1 := by
    have : env.maxRetries.toNat ≠ 0 := by omega
    exact Nat.exists_eq_succ_of_ne_zero this
  rw [waitAndRetryRequest, hk, waitAndRetryGo]
  simp only [hfail, hretry, Bool.false_eq_true, if_false]
  obtain ⟨h1, h2, h3⟩ := runAttempt_counts env 0 0
  refine ⟨trivial, ?_, ?_, ?_, ?_⟩
  · simp [List.countP_append, List.countP_cons, h1, isHttpAttempt]
  · simp [List.countP_append, List.countP_cons, h2, isSleep]
  · simp [List.countP_append, List.countP_cons, h3, isOnRetry]
  · exact exists_append_last _ _ _

/-- Witness for `waitAndRetry_fatal`: one non-ok 500 response with a
never-retry predicate. -/
theorem waitAndRetry_fatal_witness :
    (waitAndRetryRequest demoFatalEnv).1
      = .error (.thrown ("Response has some error:" ++ "R"))
  ∧ (waitAndRetryRequest demoFatalEnv).2.countP isHttpAttempt = 1
  ∧ (waitAndRetryRequest demoFatalEnv).2.countP isSleep = 0
  ∧ (waitAndRetryRequest demoFatalEnv).2.countP isOnRetry = 0
  ∧ ∃ l, (waitAndRetryRequest demoFatalEnv).2
      = l ++ [REvent.evHandler (jsErrMsg (.thrown ("Response has some error:" ++ "R")))] :=
  waitAndRetry_fatal demoFatalEnv (.thrown ("Response has some error:" ++ "R"))
    (by decide) (fun _ _ => rfl) rfl

/-- **C10**: with `maxRetries ≤ 0` the `while` guard fails immediately, so the
executor returns `{error: "Max Retries Reached"}` with an empty event trace —
no HTTP request, no `onRequestStart`, no validator, no backoff computation, no
`onRetry`, no sleep — and the Ledger, which the loop only ever reads, is left
as passed. -/
theorem waitAndRetry_nonpositive (env : RetryEnv) (hmax : env.maxRetries ≤ 0) :
    waitAndRetryRequest env = (.ok maxRetriesPayload, []) := by
  rw [waitAndRetryRequest, Int.toNat_eq_zero.mpr hmax]
  rfl

/-- Witness for `waitAndRetry_nonpositive`: `maxRetries = 0` over a healthy
network still returns the terminal payload with no events. -/
theorem waitAndRetry_nonpositive_witness :
    waitAndRetryRequest demoZeroEnv = (.ok maxRetriesPayload, []) :=
  waitAndRetry_nonpositive demoZeroEnv (by decide)

/-! ## initParams retry defaults -/

/-- **C3**: `initParams` fills each absent retry field with its default —
`maxRetries = 2`; a retry predicate that is true exactly on HTTP statuses 429
and 503; a backoff function that returns the step's effective timeout
(`request.timeout ?? globalTimeout`) unchanged for every attempt number and
retry context — and an absent `retries` object behaves as one with every
field absent. -/
theorem initParams_retry_defaults (globalTimeout : Int) (reqTimeout : Option Int)
    (retries : Option RetriesSpec) :
    ((retries.getD ⟨none, none, none⟩).maxRetries = none →
        (initRetryParams globalTimeout reqTimeout retries).maxRetries = 2)
  ∧ ((retries.getD ⟨none, none, none⟩).retryOn = none →
        ∀ e sc, (initRetryParams globalTimeout reqTimeout retries).retryOn e sc
          = (sc == 429 || sc == 503))
  ∧ ((retries.getD ⟨none, none, none⟩).backOffStrategy = none →
        ∀ a c, (initRetryParams globalTimeout reqTimeout retries).backOffStrategy a c
          = (initRetryParams globalTimeout reqTimeout retries).timeout)
  ∧ (initRetryParams globalTimeout reqTimeout retries).timeout = reqTimeout.getD globalTimeout := by
  refine ⟨?_, ?_, ?_, rfl⟩
  · intro h
    unfold initRetryParams
    simp only [h]
  · intro h e sc
    unfold initRetryParams
    simp only [h, Option.getD_none]
  · intro h a c
    unfold initRetryParams
    simp only [h, Option.getD_none]

/-- Witness for `initParams_retry_defaults`: a step with no `retries` object
at all and no step timeout. -/
theorem initParams_retry_defaults_witness :
    (initRetryParams 777 none none).maxRetries = 2
  ∧ (initRetryParams 777 none none).retryOn JsErr.abortError 503 = true
  ∧ (initRetryParams 777 none none).backOffStrategy 5
      ⟨1, JsErr.abortError, 0, 0, 0, 2, []⟩ = 777 := by
  obtain ⟨h1, h2, h3, h4⟩ := initParams_retry_defaults 777 none none
  refine ⟨h1 rfl, ?_, (h3 rfl 5 _).trans h4⟩
  rw [h2 rfl]
  decide

/-! ## storeValuesToReturn -/

/-- **C5**: the `toReturn` projection.  A spec value `"all"` binds the output
key to the entire parsed response verbatim; a path spec binds the key to the
value reached by walking the segments as nested-property lookups (the
`{a:{b:"x"}} / ["a","b"] ↦ "x"` example is the last conjunct); a segment that
finds the current node to be a string or `undefined` reaches
`throwError("Error while trying to access the response property, " + val,
onErrorInResponse)` — handler invoked, error thrown — instead of producing a
value, and such an error aborts the whole projection. -/
theorem storeValuesToReturn_spec (k : String) (resp : Option JVal) (segs : List String) :
    storeValuesToReturn [(k, RetSpec.all)] resp = .ok [(k, resp)]
  ∧ (∀ v, walkToReturn segs resp = .ok v →
      storeValuesToReturn [(k, RetSpec.path segs)] resp = .ok [(k, v)])
  ∧ (∀ e, walkToReturn segs resp = .error e →
      storeValuesToReturn [(k, RetSpec.path segs)] resp = .error e)
  ∧ (∀ seg rest, walkToReturn (seg :: rest) none
      = .error (.thrown ("Error while trying to access the response property, " ++ seg)))
  ∧ (∀ seg rest s, walkToReturn (seg :: rest) (some (JVal.jstr s))
      = .error (.thrown ("Error while trying to access the response property, " ++ seg)))
  ∧ storeValuesToReturn [("out", RetSpec.path ["a", "b"])]
        (some (JVal.jobj [("a", JVal.jobj [("b", JVal.jstr "x")])]))
      = .ok [("out", some (JVal.jstr "x"))] := by
  refine ⟨rfl, ?_, ?_, fun seg rest => rfl, fun seg rest s => rfl, rfl⟩
  · intro v hw
    rw [storeValuesToReturn, storeValuesToReturnLoop]
    simp only [hw]
    rfl
  · intro e hw
    rw [storeValuesToReturn, storeValuesToReturnLoop]
    simp only [hw]

/-- Witness for `storeValuesToReturn_spec`: the `"all"` projection of a
string response. -/
theorem storeValuesToReturn_spec_witness :
    storeValuesToReturn [("w", RetSpec.all)] (some (JVal.jstr "r"))
      = .ok [("w", some (JVal.jstr "r"))] :=
  (storeValuesToReturn_spec "w" (some (JVal.jstr "r")) ["a"]).1

/-! ## encodeBody -/

/-- **C8**: `encodeBody` dispatch.  `"json"` returns `JSON.stringify(body)`
(and that serialization parses back to the body, so it is a faithful JSON
serialization); `"url"` returns the `URLSearchParams` form-url-encoding;
`"text"` returns a string body unchanged; `"text"` on a non-string body, and
any unrecognized format, reach `throwError("Invalid body encoding format
specified", onError, …)` — the handler is invoked and the error thrown, never
a silently coerced body. -/
theorem encodeBody_dispatch (body : BodyVal) (fmt : String) :
    encodeBody body "json" = .ok (jsonStringify (bodyToJVal body))
  ∧ jsonParse (jsonStringify (bodyToJVal body)) = some (bodyToJVal body)
  ∧ encodeBody body "url" = .ok (urlSearchParamsToString (urlSearchPairs body))
  ∧ (∀ s, encodeBody (BodyVal.str s) "text" = .ok s)
  ∧ (∀ o, encodeBody (BodyVal.obj o) "text"
      = .error (.thrown "Invalid body encoding format specified"))
  ∧ (fmt ≠ "json" → fmt ≠ "url" → fmt ≠ "text" →
      encodeBody body fmt = .error (.thrown "Invalid body encoding format specified")) := by
  refine ⟨rfl, jsonParse_stringify _, rfl, fun s => rfl, fun o => rfl, ?_⟩
  intro h1 h2 h3
  unfold encodeBody
  rw [if_neg (by simpa using h1), if_neg (by simpa using h2), if_neg (by simp [h3])]

/-- Witness for `encodeBody_dispatch`: an unrecognized format is a routed
configuration error. -/
theorem encodeBody_dispatch_witness :
    encodeBody (BodyVal.str "hi") "xml"
      = .error (.thrown "Invalid body encoding format specified") :=
  (encodeBody_dispatch (BodyVal.str "hi") "xml").2.2.2.2.2 (by decide) (by decide) (by decide)

/-! ## Ledger growth across a pipeline run -/

theorem runAfterRedirectSteps_keys (gt : Int) (given allP : List (String × JVal))
    (net : Nat → Nat → FetchOutcome) (hORS hOR : Bool) :
    ∀ (steps : List StepSpec) (i : Nat) (pfd : List (String × JVal))
      (toRet : List (String × Option JVal)) (pfd' : List (String × JVal))
      (toRet' : List (String × Option JVal)),
    runAfterRedirectSteps gt given allP net hORS hOR i steps pfd toRet = .ok (pfd', toRet') →
    (∀ s ∈ steps, stepName s ∉ pfd.map Prod.fst) →
    (steps.map stepName).Nodup →
    pfd'.map Prod.fst = pfd.map Prod.fst ++ steps.map stepName
  | [], i, pfd, toRet, pfd', toRet', h, _, _ => by
      rw [runAfterRedirectSteps] at h
      cases h
      simp
  | step :: rest, i, pfd, toRet, pfd', toRet', h, hfresh, hnd => by
      rw [runAfterRedirectSteps] at h
      rcases hrs : runStep gt given allP (net i) hORS hOR (i == 0) step pfd with e | out
      · rw [hrs] at h
        simp at h
      · rw [hrs] at h
        have hstep : stepName step ∉ pfd.map Prod.fst := hfresh step (List.mem_cons_self ..)
        have hassign : (assignKey pfd (stepName step) out.1).map Prod.fst
            = pfd.map Prod.fst ++ [stepName step] := by
          rw [assignKey_fresh]
          · simp
          · intro q hq heq
            exact hstep (heq ▸ List.mem_map_of_mem Prod.fst hq)
        simp only [List.map_cons, List.nodup_cons] at hnd
        have ih := runAfterRedirectSteps_keys gt given allP net hORS hOR rest (i + 1)
          (assignKey pfd (stepName step) out.1)
          (out.2.foldl (fun a p => assignKeyO a p.1 p.2) toRet) pfd' toRet' h ?fresh hnd.2
        · rw [ih, hassign]
          simp
        case fresh =>
          intro s hs
          rw [hassign]
          intro hmem
          rcases List.mem_append.mp hmem with hmem | hmem
          · exact hfresh s (List.mem_cons_of_mem _ hs) hmem
          · rw [List.mem_singleton] at hmem
            exact hnd.1 (hmem ▸ List.mem_map_of_mem stepName hs)

/-- **C6**: a custom-provider run whose steps all complete, with pairwise
distinct step names, leaves the Ledger with exactly one entry per step, keyed
by the step's name, in step order (so `N` steps give exactly `N` entries, and
no entry is ever removed or overwritten — each step's
`{...previousFetchData, [params.name]: params.currentFetchData}` update
appends a fresh key). -/
theorem pipeline_ledger_growth (provider : String) (gt : Int)
    (given allP : List (String × JVal)) (net : Nat → Nat → FetchOutcome)
    (hORS hOR : Bool) (steps : List StepSpec)
    (pfd : List (String × JVal)) (acc : List (String × Option JVal))
    (h : getCustomProviderUserInfo provider gt given allP net hORS hOR steps = .ok (pfd, acc))
    (hnd : (steps.map stepName).Nodup) :
    pfd.map Prod.fst = steps.map stepName ∧ pfd.length = steps.length := by
  rw [getCustomProviderUserInfo] at h
  rcases hrun : runAfterRedirectSteps gt given allP net hORS hOR 0 steps [] [] with e | ⟨l, t⟩
  · rw [hrun] at h
    simp at h
  · rw [hrun] at h
    simp only [Except.ok.injEq, Prod.mk.injEq] at h
    have hkeys := runAfterRedirectSteps_keys gt given allP net hORS hOR steps 0 [] [] l t
      hrun (by simp) hnd
    simp only [List.map_nil, List.nil_append] at hkeys
    have hpfd : pfd = l := h.1.symm
    subst hpfd
    refine ⟨hkeys, ?_⟩
    have := congrArg List.length hkeys
    simpa using this

/-- Witness for `pipeline_ledger_growth`: a concrete two-step run over a
healthy network produces a two-entry Ledger keyed `s1`, `s2`. -/
theorem pipeline_ledger_growth_witness :
    ([("s1", demoStepRecord "s1"), ("s2", demoStepRecord "s2")]
        : List (String × JVal)).map Prod.fst
      = [demoStep "s1", demoStep "s2"].map stepName
  ∧ ([("s1", demoStepRecord "s1"), ("s2", demoStepRecord "s2")]
        : List (String × JVal)).length = [demoStep "s1", demoStep "s2"].length :=
  pipeline_ledger_growth "p" 1000 [] [] demoNet false false [demoStep "s1", demoStep "s2"]
    [("s1", demoStepRecord "s1"), ("s2", demoStepRecord "s2")]
    [("name", some (JVal.jstr "p"))] rfl (by decide)
